import Mathlib

/-!
# Lucidian — verification of the agent loop, round accumulator and tool executor

Shallow embedding of the two sibling implementations found in the repository:

* `copilot-plugin/src/core/tools/executor.ts` (`ToolExecutor`) and
  `copilot-plugin/src/core/api/client.ts` (`streamChat`, `AgentLoop`),
  embedded below under the `Plugin` namespace;
* `src/core/copilot/executor.ts` (`CopilotToolExecutor`) and
  `src/features/chat/CopilotService.ts` (`CopilotService.query`,
  `CopilotService.streamOneRound`), embedded under the `Service` namespace.

JavaScript strings are modelled as Lean `String`; all string manipulation is
implemented by explicit recursion over `String.data` so that every definition
is executable and kernel-reducible.  `Date.now()` is modelled as an explicit
timestamp parameter, the filesystem as an association list from absolute path
to file content, and `child_process.exec` as an oracle function supplied in
the environment.
-/

namespace Lucidian

/-! ## String primitives (JavaScript semantics, over `List Char`) -/

/-- JS `a.startsWith(b)`: is `pre` a prefix of `s` (code-unit wise)? -/
def strStartsWith (s pre : String) : Bool :=
  pre.data.isPrefixOf s.data

/-- Does `sub` occur contiguously inside `l`? -/
def listIsInfix (sub : List Char) : List Char → Bool
  | [] => sub.isEmpty
  | c :: cs => sub.isPrefixOf (c :: cs) || listIsInfix sub cs

/-- JS `a.includes(b)`: does `sub` occur contiguously inside `s`? -/
def strContains (s sub : String) : Bool :=
  listIsInfix sub.data s.data

/-- Split a character list at every `/`.  Mirrors JS `s.split("/")`:
the result always has one more element than the number of slashes. -/
def splitSlash : List Char → List (List Char)
  | [] => [[]]
  | c :: cs =>
    match splitSlash cs with
    | [] => [[]]
    | seg :: segs => if c = '/' then [] :: seg :: segs else (c :: seg) :: segs

/-- Non-empty path components of a POSIX path string. -/
def pathComponents (s : String) : List String :=
  ((splitSlash s.data).filter (· ≠ [])).map fun cs => ⟨cs⟩

/-- Process `.` and `..` components the way Node's `path.normalize` does for
an absolute path: `..` pops the last component (clamped at the root), `.` is
dropped. -/
def normalizeComponents (comps : List String) : List String :=
  comps.foldl
    (fun acc c =>
      if c = "." then acc
      else if c = ".." then acc.dropLast
      else acc ++ [c])
    []

/-- Node `path.resolve(base, p)` for an absolute `base` and a POSIX path `p`:
if `p` is absolute it wins, otherwise it is joined onto `base`; the result is
normalized and has no trailing slash (except the bare root `/`). -/
def pathResolve (base p : String) : String :=
  let comps :=
    if strStartsWith p "/" then pathComponents p
    else pathComponents base ++ pathComponents p
  "/" ++ String.intercalate "/" (normalizeComponents comps)

/-- The property the specification asks of path confinement: the resolved
absolute path stays within the confinement root (it is the root itself or a
descendant of it). -/
def withinRoot (root p : String) : Bool :=
  p = root || strStartsWith p (root ++ "/")

/-! ## More JS string primitives -/

/-- Is this one of the whitespace characters relevant to JS `trim`? -/
def isJsSpace (c : Char) : Bool :=
  c = ' ' || c = '\n' || c = '\t' || c = '\r'

/-- JS `s.trimEnd()`. -/
def trimEnd (s : String) : String :=
  ⟨(s.data.reverse.dropWhile isJsSpace).reverse⟩

/-- JS `s.trim()`. -/
def jsTrim (s : String) : String :=
  ⟨(((s.data.dropWhile isJsSpace).reverse.dropWhile isJsSpace).reverse)⟩

/-- Splitter for a non-empty separator `s0 :: srest`; `acc` holds the current
segment reversed.  Mirrors JS `String.prototype.split` with a string
separator: non-overlapping, scanning left to right.  Structural recursion on
an explicit fuel so that the kernel can evaluate it; every step consumes at
least one character, so any fuel of at least the input length is exact. -/
def splitNE (s0 : Char) (srest : List Char) : Nat → List Char → List Char → List (List Char)
  | _, acc, [] => [acc.reverse]
  | 0, acc, rest => [acc.reverse ++ rest]
  | fuel + 1, acc, c :: cs =>
    if (s0 :: srest).isPrefixOf (c :: cs) then
      acc.reverse :: splitNE s0 srest fuel [] (cs.drop srest.length)
    else
      splitNE s0 srest fuel (c :: acc) cs

/-- JS `s.split(sep)`.  An empty separator splits into single characters
(and `"".split("")` is the empty array). -/
def jsSplit (s sep : String) : List String :=
  match sep.data with
  | [] => s.data.map fun c => ⟨[c]⟩
  | s0 :: srest => (splitNE s0 srest s.data.length [] s.data).map fun cs => ⟨cs⟩

/-- ECMA-262 `GetSubstitution` for a plain-string pattern (no capture
groups, no named groups): expand the replacement template `rep` given the
`matched` text, the portion of the subject `preceding` the match and the
portion `following` it.  The recognized forms are `$$` (a literal dollar),
`$&` (the match), dollar-backtick (the preceding portion, the backtick
written as `Char.ofNat 96`) and dollar-apostrophe (the following portion,
the apostrophe written as `Char.ofNat 39`); with no capture groups every
other use of `$` — including `$1`…`$99`, `$<…>` and a trailing `$` — is
literal text. -/
def getSubstitution (matched preceding following : List Char) : List Char → List Char
  | [] => []
  | '$' :: '$' :: rest => '$' :: getSubstitution matched preceding following rest
  | '$' :: '&' :: rest => matched ++ getSubstitution matched preceding following rest
  | '$' :: c :: rest =>
    if c = Char.ofNat 96 then preceding ++ getSubstitution matched preceding following rest
    else if c = Char.ofNat 39 then following ++ getSubstitution matched preceding following rest
    else '$' :: getSubstitution matched preceding following (c :: rest)
  | c :: rest => c :: getSubstitution matched preceding following rest

/-- Auxiliary for `jsReplaceFirst`: replace the first occurrence of the
non-empty pattern `pat`, expanding `rep` via `getSubstitution`.  `pre`
accumulates the scanned prefix in reverse (the match's `preceding`
portion). -/
def replaceFirstAux (pat rep : List Char) : List Char → List Char → List Char
  | _, [] => []
  | pre, c :: cs =>
    if pat.isPrefixOf (c :: cs) then
      getSubstitution pat pre.reverse ((c :: cs).drop pat.length) rep
        ++ (c :: cs).drop pat.length
    else c :: replaceFirstAux pat rep (c :: pre) cs

/-- JS `s.replace(pat, rep)` with a plain-string pattern: replaces the
first occurrence only, expanding `$$`, `$&`, dollar-backtick and
dollar-apostrophe in `rep` per `GetSubstitution`; an empty pattern matches
at position 0. -/
def jsReplaceFirst (s pat rep : String) : String :=
  match pat.data with
  | [] => ⟨getSubstitution [] [] s.data rep.data ++ s.data⟩
  | _ :: _ => ⟨replaceFirstAux pat.data rep.data [] s.data⟩

/-- Modelled from the spec's words: "replace" of the edit tool reading
`new_string` as literal text spliced in place of the occurrence, with no
`$`-pattern expansion.  Kept to compare against the code's
`jsReplaceFirst`; the two agree exactly when the replacement contains no
dollar sign. -/
def specReplaceFirstAux (pat rep : List Char) : List Char → List Char
  | [] => []
  | c :: cs =>
    if pat.isPrefixOf (c :: cs) then rep ++ (c :: cs).drop pat.length
    else c :: specReplaceFirstAux pat rep cs

/-- Modelled from the spec's words: literal-splice first replacement (see
`specReplaceFirstAux`). -/
def specReplaceFirst (s pat rep : String) : String :=
  match pat.data with
  | [] => rep ++ s
  | _ :: _ => ⟨specReplaceFirstAux pat.data rep.data s.data⟩

/-- Auxiliary for `jsReplaceAll`: replace every (non-overlapping)
occurrence of the non-empty pattern `p0 :: prest`, expanding `rep` per
`getSubstitution` at each match (`pre` is the reversed scanned prefix).
Fuel-structural for kernel evaluation; fuel at least the input length is
exact. -/
def replaceAllAux (p0 : Char) (prest rep : List Char) :
    Nat → List Char → List Char → List Char
  | _, _, [] => []
  | 0, _, rest => rest
  | fuel + 1, pre, c :: cs =>
    if (p0 :: prest).isPrefixOf (c :: cs) then
      getSubstitution (p0 :: prest) pre.reverse ((c :: cs).drop (p0 :: prest).length) rep
        ++ replaceAllAux p0 prest rep fuel ((p0 :: prest).reverse ++ pre)
            (cs.drop prest.length)
    else
      c :: replaceAllAux p0 prest rep fuel (c :: pre) cs

/-- JS `s.replace(new RegExp(pat, "g"), rep)` for a pattern without regex
metacharacters: global non-overlapping replacement with `GetSubstitution`
expansion of `rep` (every call site in this program passes a replacement
without `$`, for which the expansion is the identity). -/
def jsReplaceAll (s pat rep : String) : String :=
  match pat.data with
  | [] => s
  | p0 :: prest => ⟨replaceAllAux p0 prest rep.data s.data.length [] s.data⟩

/-- Code-point lexicographic order on char lists (JS default string sort;
`localeCompare` is modelled the same way). -/
def charListLe : List Char → List Char → Bool
  | [], _ => true
  | _ :: _, [] => false
  | a :: as, b :: bs => if a = b then charListLe as bs else decide (a.val < b.val)

/-- Insert into a list sorted by the boolean comparator `le`. -/
def insertBy (le : α → α → Bool) (x : α) : List α → List α
  | [] => [x]
  | y :: ys => if le x y then x :: y :: ys else y :: insertBy le x ys

/-- Insertion sort by a boolean comparator (models JS `Array.prototype.sort`
with a consistent comparator; stable, which pins the result). -/
def sortBy (le : α → α → Bool) : List α → List α
  | [] => []
  | x :: xs => insertBy le x (sortBy le xs)

/-! ## JS values, arguments, filesystem and shell oracle -/

/-- The subset of JS values the executors actually receive as arguments. -/
inductive JsVal where
  | str (s : String)
  | num (n : Int)
  | undefined
deriving DecidableEq

/-- `args: Record<string, unknown>`, modelled as an association list;
a missing key reads as `undefined`. -/
abbrev Args := List (String × JsVal)

/-- Property access `args.k`. -/
def getArg (args : Args) (k : String) : JsVal :=
  ((args.find? (·.1 == k)).map (·.2)).getD .undefined

/-- JS `String(v)`. -/
def jsToString : JsVal → String
  | .str s => s
  | .num n => toString n
  | .undefined => "undefined"

/-- JS truthiness of the values in `JsVal`. -/
def jsTruthy : JsVal → Bool
  | .str s => s ≠ ""
  | .num n => n ≠ 0
  | .undefined => false

/-- JS `Number(v)` restricted to the shapes that occur here; a string is
parsed as a decimal integer (`NaN` for other strings is modelled as 0, a
case no claim exercises). -/
def jsToNumber : JsVal → Int
  | .num n => n
  | .str s =>
    if s ≠ "" && s.data.all (·.isDigit) then
      Int.ofNat (s.data.foldl (fun a c => a * 10 + (c.toNat - 48)) 0)
    else 0
  | .undefined => 0

/-- The filesystem, as an association list from absolute file path to file
content.  Directories are implicit (a directory exists when some file lies
underneath it). -/
abbrev FS := List (String × String)

/-- Look up a file. -/
def fsRead (fs : FS) (p : String) : Option String :=
  ((fs.find? (·.1 == p)).map (·.2))

/-- Create or overwrite a file. -/
def fsWrite : FS → String → String → FS
  | [], p, c => [(p, c)]
  | (q, d) :: rest, p, c =>
    if q == p then (q, c) :: rest else (q, d) :: fsWrite rest p c

/-- `fs.readFileSync(p, "utf-8")`, which throws `ENOENT` when missing. -/
def fsReadE (fs : FS) (p : String) : Except String String :=
  match fsRead fs p with
  | some c => .ok c
  | none => .error ("ENOENT: no such file or directory, open \x27" ++ p ++ "\x27")

/-- Outcome of one `child_process.exec` call, as seen by its callback
`(error, stdout, stderr)`: `errored` means `error` was non-null, `killed`
is `error.killed` (timeout), `errMsg` is `error.message`. -/
structure ShellRes where
  errored : Bool
  killed : Bool
  errMsg : String
  stdout : String
  stderr : String
deriving DecidableEq

/-- Executor environment: the confinement root (`vaultPath`), the filesystem
and the shell oracle standing in for `child_process.exec`. -/
structure Env where
  root : String
  fs : FS
  sh : String → ShellRes

/-- Uniform tool result `{content, isError}` (both executors). -/
structure ToolResult where
  content : String
  isError : Bool
deriving DecidableEq

/-- One directory entry `(name, isDirectory)` as produced by
`fs.readdirSync(p, { withFileTypes: true })`. -/
abbrev DirEntry := String × Bool

/-- The entry of directory `abs` contributed by the file `filePath`, if any:
the first path component below `abs`, marked as a directory when the file
lies deeper. -/
def childEntry (abs filePath : String) : Option DirEntry :=
  let pre := (abs ++ "/").data
  if pre.isPrefixOf filePath.data then
    match (splitSlash (filePath.data.drop pre.length)).filter (· ≠ []) with
    | [] => none
    | [n] => some (⟨n⟩, false)
    | n :: _ :: _ => some (⟨n⟩, true)
  else none

/-- Drop duplicate names, keeping the first occurrence. -/
def dedupEntries : List DirEntry → List DirEntry
  | [] => []
  | e :: rest => e :: (dedupEntries rest).filter (·.1 ≠ e.1)

/-- `fs.readdirSync(abs, { withFileTypes: true })` over the modelled
filesystem: the distinct immediate children of `abs`. -/
def readdir (fs : FS) (abs : String) : List DirEntry :=
  dedupEntries (fs.filterMap fun pc => childEntry abs pc.1)

namespace Plugin

/-!
### `ToolExecutor` (copilot-plugin/src/core/tools/executor.ts)

Each private method is embedded as a function
`Args → Env → Except String (ToolResult × FS)`; `Except.error` models a
thrown exception (caught by `execute`), the returned `FS` is the filesystem
after the call.  Tool names are those of
`copilot-plugin/src/core/tools/definitions.ts` (`TOOL_NAMES`).
-/

/-- `ToolExecutor.resolvePath`: `path.resolve(vaultPath, relativePath)`
followed by the guard `resolved.startsWith(this.vaultPath)`; throws on
failure. -/
def resolvePath (root rel : String) : Except String String :=
  let resolved := pathResolve root rel
  if strStartsWith resolved root then .ok resolved
  else .error "Path traversal not allowed: path must be within the vault"

/-- Number the selected lines: ```${startIdx + i + 1}\t${line}```. -/
def numberLines (startIdx : Nat) : Nat → List String → List String
  | _, [] => []
  | i, l :: ls => (toString (startIdx + i + 1) ++ "\t" ++ l) :: numberLines startIdx (i + 1) ls

/-- `ToolExecutor.readFile`. -/
def readFileT (args : Args) (env : Env) : Except String (ToolResult × FS) := do
  let filePath := jsToString (getArg args "file_path")
  let absPath ← resolvePath env.root filePath
  let offset : Int := match getArg args "offset" with | .num n => n | _ => 1
  let limit : Int := match getArg args "limit" with | .num n => n | _ => 2000
  let content ← fsReadE env.fs absPath
  let lines := jsSplit content "\n"
  let startIdx : Nat := (offset - 1).toNat
  let selected := (lines.drop startIdx).take limit.toNat
  let numbered := String.intercalate "\n" (numberLines startIdx 0 selected)
  return ({ content := numbered, isError := false }, env.fs)

/-- `ToolExecutor.writeFile` (`mkdirSync` is a no-op in a file-only
filesystem model). -/
def writeFileT (args : Args) (env : Env) : Except String (ToolResult × FS) := do
  let filePath := jsToString (getArg args "file_path")
  let content := jsToString (getArg args "content")
  let absPath ← resolvePath env.root filePath
  let fs' := fsWrite env.fs absPath content
  let lineCount := (jsSplit content "\n").length
  return ({ content := "Wrote " ++ toString lineCount ++ " lines to " ++ filePath,
            isError := false }, fs')

/-- The occurrence count used by `editFile`:
`content.split(oldString).length - 1` (an `Int`, since JS computes `-1`
for the empty file / empty `old_string` corner). -/
def countOccurrences (content old : String) : Int :=
  (jsSplit content old).length - 1

/-- `ToolExecutor.editFile`. -/
def editFileT (args : Args) (env : Env) : Except String (ToolResult × FS) := do
  let filePath := jsToString (getArg args "file_path")
  let oldString := jsToString (getArg args "old_string")
  let newString := jsToString (getArg args "new_string")
  let absPath ← resolvePath env.root filePath
  let content ← fsReadE env.fs absPath
  let occurrences := countOccurrences content oldString
  if occurrences = 0 then
    return ({ content := "old_string not found in " ++ filePath, isError := true }, env.fs)
  else if occurrences > 1 then
    return ({ content := "old_string found " ++ toString occurrences ++ " times in "
                ++ filePath ++ " — must be unique. Provide more surrounding context.",
              isError := true }, env.fs)
  else
    let updated := jsReplaceFirst content oldString newString
    return ({ content := "Edited " ++ filePath ++ " successfully", isError := false },
            fsWrite env.fs absPath updated)

/-- The denylist of `ToolExecutor.bash`. -/
def blocklist : List String :=
  ["rm -rf /", "rm -rf ~", "mkfs", "dd if=", ":()\x7b:|:&\x7d;:"]

/-- `ToolExecutor.bash`. -/
def bashT (args : Args) (env : Env) : Except String (ToolResult × FS) := do
  let command := jsToString (getArg args "command")
  match blocklist.find? (fun b => strContains command b) with
  | some b =>
    return ({ content := "Blocked dangerous command: " ++ b, isError := true }, env.fs)
  | none =>
    let r := env.sh command
    if r.errored && r.killed then
      return ({ content := "Command timed out after 30 seconds", isError := true }, env.fs)
    else
      let parts := [if r.stdout ≠ "" then trimEnd r.stdout else "",
                    if r.stderr ≠ "" then "STDERR:\n" ++ trimEnd r.stderr else ""]
      let output := String.intercalate "\n" (parts.filter (· ≠ ""))
      return ({ content := if output = "" then "(no output)" else output,
                isError := r.errored }, env.fs)

/-- `ToolExecutor.grep` (the `new RegExp(vaultPath + "/", "g")` path
stripping is modelled as a literal global replacement). -/
def grepT (args : Args) (env : Env) : Except String (ToolResult × FS) := do
  let pattern := jsToString (getArg args "pattern")
  let searchPath := if jsTruthy (getArg args "path") then jsToString (getArg args "path") else "."
  let includeGlob := if jsTruthy (getArg args "include") then jsToString (getArg args "include") else ""
  let contextLines : Int := match getArg args "context_lines" with | .num n => n | _ => 0
  let absPath ← resolvePath env.root searchPath
  let cmd := "grep -rn --color=never"
    ++ (if includeGlob ≠ "" then " --include=\"" ++ includeGlob ++ "\"" else "")
    ++ (if contextLines > 0 then " -C " ++ toString contextLines else "")
    ++ " -E \"" ++ jsReplaceAll pattern "\"" "\\\"" ++ "\" \"" ++ absPath ++ "\""
  let r := env.sh cmd
  if jsTrim r.stdout = "" then
    return ({ content := "No matches found", isError := false }, env.fs)
  else
    let output := jsReplaceAll r.stdout (env.root ++ "/") ""
    let lines := jsSplit (jsTrim output) "\n"
    let truncated :=
      if lines.length > 200 then
        String.intercalate "\n" (lines.take 200)
          ++ "\n... (" ++ toString (lines.length - 200) ++ " more lines)"
      else String.intercalate "\n" lines
    return ({ content := truncated, isError := false }, env.fs)

/-- `ToolExecutor.glob`. -/
def globT (args : Args) (env : Env) : Except String (ToolResult × FS) := do
  let pattern := jsToString (getArg args "pattern")
  let searchPath := if jsTruthy (getArg args "path") then jsToString (getArg args "path") else "."
  let absPath ← resolvePath env.root searchPath
  let cmd := "find \"" ++ absPath ++ "\" -type f -name \""
    ++ jsReplaceAll pattern "**/" "" ++ "\" 2>/dev/null | head -200"
  let r := env.sh cmd
  if jsTrim r.stdout = "" then
    return ({ content := "No files matched", isError := false }, env.fs)
  else
    return ({ content := jsTrim (jsReplaceAll r.stdout (env.root ++ "/") ""),
              isError := false }, env.fs)

/-- Sort comparator of `ToolExecutor.ls`: directories before files, then
alphabetical (`localeCompare` modelled as code-point order). -/
def lsLe (a b : DirEntry) : Bool :=
  if a.2 && !b.2 then true
  else if !a.2 && b.2 then false
  else charListLe a.1.data b.1.data

/-- `ToolExecutor.ls`.  `readdirSync` throws `ENOENT` when the directory
does not exist (the confinement root itself always exists) and `ENOTDIR`
when the path is a file. -/
def lsT (args : Args) (env : Env) : Except String (ToolResult × FS) := do
  let dirPath := if jsTruthy (getArg args "path") then jsToString (getArg args "path") else "."
  let absPath ← resolvePath env.root dirPath
  let entries := readdir env.fs absPath
  if absPath ≠ env.root && entries.isEmpty then
    if (fsRead env.fs absPath).isSome then
      .error ("ENOTDIR: not a directory, scandir \x27" ++ absPath ++ "\x27")
    else
      .error ("ENOENT: no such file or directory, scandir \x27" ++ absPath ++ "\x27")
  else
    let lines := (sortBy lsLe entries).map fun e =>
      (if e.2 then "[dir]  " else "[file] ") ++ e.1
    let out := String.intercalate "\n" lines
    return ({ content := if out = "" then "(empty directory)" else out,
              isError := false }, env.fs)

/-- The body of the `try` block of `ToolExecutor.execute`: dispatch on the
tool name; the `default` arm returns (does not throw) an unknown-tool
error result. -/
def tryExecute (toolName : String) (args : Args) (env : Env) :
    Except String (ToolResult × FS) :=
  if toolName == "read_file" then readFileT args env
  else if toolName == "write_file" then writeFileT args env
  else if toolName == "edit_file" then editFileT args env
  else if toolName == "bash" then bashT args env
  else if toolName == "grep" then grepT args env
  else if toolName == "glob" then globT args env
  else if toolName == "list_directory" then lsT args env
  else .ok ({ content := "Unknown tool: " ++ toolName, isError := true }, env.fs)

/-- `ToolExecutor.execute`: the `try`/`catch` wrapper — every thrown
exception is converted into an `isError` result and the filesystem is left
as it was. -/
def execute (toolName : String) (args : Args) (env : Env) : ToolResult × FS :=
  match tryExecute toolName args env with
  | .ok r => r
  | .error e => ({ content := "Error: " ++ e, isError := true }, env.fs)

end Plugin

namespace Service

/-!
### `CopilotToolExecutor` (src/core/copilot/executor.ts)

The sibling implementation.  Same conventions as the `Plugin` namespace.
Tool names come from `COPILOT_TOOL_NAMES` and coincide with the plugin's.
-/

/-- `CopilotToolExecutor.resolvePath`: same `path.resolve` +
`startsWith(vaultPath)` guard, different error message. -/
def resolvePath (root rel : String) : Except String String :=
  let resolved := pathResolve root rel
  if strStartsWith resolved root then .ok resolved
  else .error ("Path traversal detected: " ++ rel)

/-- `CopilotToolExecutor.readFile` (`String(args.file_path ?? '')`,
`Number(args.offset ?? 1)`). -/
def readFileT (args : Args) (env : Env) : Except String (ToolResult × FS) := do
  let filePath ← resolvePath env.root
    (jsToString (match getArg args "file_path" with | .undefined => .str "" | v => v))
  let offset := jsToNumber (match getArg args "offset" with | .undefined => .num 1 | v => v)
  let limit := jsToNumber (match getArg args "limit" with | .undefined => .num 2000 | v => v)
  let content ← fsReadE env.fs filePath
  let lines := jsSplit content "\n"
  let start : Nat := (offset - 1).toNat
  let selected := (lines.drop start).take limit.toNat
  let numbered := String.intercalate "\n" (Plugin.numberLines start 0 selected)
  return ({ content := numbered, isError := false }, env.fs)

/-- `CopilotToolExecutor.writeFile`. -/
def writeFileT (args : Args) (env : Env) : Except String (ToolResult × FS) := do
  let filePath ← resolvePath env.root
    (jsToString (match getArg args "file_path" with | .undefined => .str "" | v => v))
  let content := jsToString (match getArg args "content" with | .undefined => .str "" | v => v)
  let fs' := fsWrite env.fs filePath content
  return ({ content := "File written: " ++ jsToString (getArg args "file_path"),
            isError := false }, fs')

/-- `CopilotToolExecutor.editFile`. -/
def editFileT (args : Args) (env : Env) : Except String (ToolResult × FS) := do
  let filePath ← resolvePath env.root
    (jsToString (match getArg args "file_path" with | .undefined => .str "" | v => v))
  let oldString := jsToString (match getArg args "old_string" with | .undefined => .str "" | v => v)
  let newString := jsToString (match getArg args "new_string" with | .undefined => .str "" | v => v)
  let content ← fsReadE env.fs filePath
  let occurrences := Plugin.countOccurrences content oldString
  if occurrences = 0 then
    return ({ content := "old_string not found in file", isError := true }, env.fs)
  else if occurrences > 1 then
    return ({ content := "old_string found " ++ toString occurrences
                ++ " times (must be unique)", isError := true }, env.fs)
  else
    let updated := jsReplaceFirst content oldString newString
    return ({ content := "File edited: " ++ jsToString (getArg args "file_path"),
              isError := false }, fsWrite env.fs filePath updated)

/-- `BLOCKED_COMMANDS` of src/core/copilot/executor.ts (the fork bomb here
is spelled with spaces). -/
def blockedCommands : List String :=
  ["rm -rf /", "rm -rf ~", "mkfs", "dd if=", ":()\x7b :|:& \x7d;:"]

/-- JS `s.slice(0, 10000)`. -/
def slice10000 (s : String) : String :=
  ⟨s.data.take 10000⟩

/-- `CopilotToolExecutor.bash`. -/
def bashT (args : Args) (env : Env) : Except String (ToolResult × FS) := do
  let command := jsToString (match getArg args "command" with | .undefined => .str "" | v => v)
  match blockedCommands.find? (fun b => strContains command b) with
  | some b =>
    return ({ content := "Blocked command: " ++ b, isError := true }, env.fs)
  | none =>
    let r := env.sh command
    if r.errored then
      let output := if r.stderr ≠ "" then r.stderr
                    else if r.stdout ≠ "" then r.stdout else r.errMsg
      return ({ content := slice10000 output, isError := true }, env.fs)
    else
      let output := r.stdout ++ (if r.stderr ≠ "" then "\n" ++ r.stderr else "")
      let sliced := slice10000 output
      return ({ content := if sliced = "" then "(no output)" else sliced,
                isError := false }, env.fs)

/-- `CopilotToolExecutor.grep`: when `args.path` is falsy the search path is
the vault root itself, with no resolution. -/
def grepT (args : Args) (env : Env) : Except String (ToolResult × FS) := do
  let pattern := jsToString (match getArg args "pattern" with | .undefined => .str "" | v => v)
  let searchPath ←
    if jsTruthy (getArg args "path") then resolvePath env.root (jsToString (getArg args "path"))
    else pure env.root
  let includePart := if jsTruthy (getArg args "include") then
      "--include=\"" ++ jsToString (getArg args "include") ++ "\"" else ""
  let contextLines := jsToNumber (match getArg args "context_lines" with | .undefined => .num 0 | v => v)
  let contextFlag := if contextLines > 0 then "-C " ++ toString contextLines else ""
  let cmd := "grep -rn " ++ contextFlag ++ " " ++ includePart ++ " -E \""
    ++ jsReplaceAll pattern "\"" "\\\"" ++ "\" \"" ++ searchPath ++ "\" 2>/dev/null | head -200"
  let r := env.sh cmd
  if r.errored && r.stdout = "" then
    return ({ content := "No matches found", isError := false }, env.fs)
  else
    let sliced := slice10000 r.stdout
    return ({ content := if sliced = "" then "No matches found" else sliced,
              isError := false }, env.fs)

/-- Node `path.relative(root, f)`, restricted to the shapes produced here:
strip the `root ++ "/"` prefix. -/
def pathRelative (root f : String) : String :=
  if strStartsWith f (root ++ "/") then ⟨f.data.drop (root ++ "/").data.length⟩ else f

/-- `CopilotToolExecutor.glob`. -/
def globT (args : Args) (env : Env) : Except String (ToolResult × FS) := do
  let pattern := jsToString (match getArg args "pattern" with | .undefined => .str "" | v => v)
  let searchPath ←
    if jsTruthy (getArg args "path") then resolvePath env.root (jsToString (getArg args "path"))
    else pure env.root
  let cmd := "find \"" ++ searchPath ++ "\" -path \"*/" ++ pattern
    ++ "\" -o -name \"" ++ pattern ++ "\" 2>/dev/null | head -200"
  let r := env.sh cmd
  if r.errored && r.stdout = "" then
    return ({ content := "No files found", isError := false }, env.fs)
  else
    let files := String.intercalate "\n"
      (((jsSplit r.stdout "\n").filter (· ≠ "")).map (pathRelative env.root))
    return ({ content := if files = "" then "No files found" else files,
              isError := false }, env.fs)

/-- `CopilotToolExecutor.ls`: directories (suffixed `/`) sorted first, then
files, each by JS default (code-unit) string order. -/
def lsT (args : Args) (env : Env) : Except String (ToolResult × FS) := do
  let dirPath ←
    if jsTruthy (getArg args "path") then resolvePath env.root (jsToString (getArg args "path"))
    else pure env.root
  let entries := readdir env.fs dirPath
  if dirPath ≠ env.root && entries.isEmpty then
    if (fsRead env.fs dirPath).isSome then
      .error ("ENOTDIR: not a directory, scandir \x27" ++ dirPath ++ "\x27")
    else
      .error ("ENOENT: no such file or directory, scandir \x27" ++ dirPath ++ "\x27")
  else
    let strLe := fun a b => charListLe (String.data a) (String.data b)
    let dirs := sortBy strLe (((entries.filter (·.2)).map (·.1)).map (· ++ "/"))
    let files := sortBy strLe ((entries.filter (!·.2)).map (·.1))
    let out := String.intercalate "\n" (dirs ++ files)
    return ({ content := if out = "" then "(empty directory)" else out,
              isError := false }, env.fs)

/-- Body of the `try` block of `CopilotToolExecutor.execute`. -/
def tryExecute (toolName : String) (args : Args) (env : Env) :
    Except String (ToolResult × FS) :=
  if toolName == "read_file" then readFileT args env
  else if toolName == "write_file" then writeFileT args env
  else if toolName == "edit_file" then editFileT args env
  else if toolName == "bash" then bashT args env
  else if toolName == "grep" then grepT args env
  else if toolName == "glob" then globT args env
  else if toolName == "list_directory" then lsT args env
  else .ok ({ content := "Unknown tool: " ++ toolName, isError := true }, env.fs)

/-- `CopilotToolExecutor.execute`: `try`/`catch` wrapper. -/
def execute (toolName : String) (args : Args) (env : Env) : ToolResult × FS :=
  match tryExecute toolName args env with
  | .ok r => r
  | .error e => ({ content := "Error: " ++ e, isError := true }, env.fs)

end Service

/-! ## Wire-level stream data (both clients)

A decoded SSE chunk carries choices whose delta has an optional text
fragment and a list of partial tool-call fragments.  A fragment's `id`,
`name` and `arguments` are `Option`s: `none` is an absent field (JS
`undefined`), `some ""` a present empty string (falsy for the truthiness
guards, but distinct for `??`). -/

structure Frag where
  index : Nat
  id : Option String := none
  name : Option String := none
  arguments : Option String := none
deriving DecidableEq

structure Delta where
  content : Option String := none
  tool_calls : List Frag := []
deriving DecidableEq

structure Choice where
  delta : Delta
deriving DecidableEq

structure Chunk where
  choices : List Choice
deriving DecidableEq

/-- A finished tool-call descriptor `{id, name, arguments}` (also used as
the in-progress builder record of both accumulators, which have the same
shape). -/
structure ToolCall where
  id : String
  name : String
  arguments : String
deriving DecidableEq

inductive Role where
  | system | user | assistant | tool
deriving DecidableEq

/-- Conversation message (`ChatMessage` of both clients).  Absent
`tool_calls` and empty `tool_calls` are identified (the consumers only test
emptiness). -/
structure ChatMessage where
  role : Role
  content : Option String := none
  tool_calls : List ToolCall := []
  tool_call_id : Option String := none
deriving DecidableEq

/-- UI-facing events (the callbacks of `AgentLoop` and the yielded
`StreamChunk`s of `CopilotService.query`, merged into one event type). -/
inductive Event where
  | textDelta (s : String)
  | textDone (s : String)
  | toolStart (id name : String)
  | toolInput (id args : String)
  | toolComplete (id name : String) (result : ToolResult)
  | toolUse (id name : String)
  | toolResult (id content : String) (isError : Bool)
  | errorEv (msg : String)
  | done
deriving DecidableEq

/-- The per-round tool-call accumulator: a JS `Map<number, builder>` kept in
insertion order (set on a new key appends, set on an existing key updates in
place). -/
abbrev AccMap := List (Nat × ToolCall)

/-- JS `map.get(i)` (as an `Option`). -/
def accFind (m : AccMap) (i : Nat) : Option ToolCall :=
  (m.find? (·.1 == i)).map (·.2)

/-- JS `map.set(i, b)`. -/
def accSet : AccMap → Nat → ToolCall → AccMap
  | [], i, b => [(i, b)]
  | (j, c) :: rest, i, b =>
    if j == i then (j, b) :: rest else (j, c) :: accSet rest i b

namespace Plugin

/-!
### `AgentLoop` (copilot-plugin/src/core/api/client.ts)

`streamChat` checks the abort signal once after the HTTP response and then
once per parsed line before yielding; `processRound` checks it once per
received chunk.  These checks alternate, so an abort instant is modelled as
an index into the check sequence of the round: check `2*t` is the
generator-side check before chunk `t` is yielded, check `2*t + 1` the
consumer-side check after chunk `t` is received.  `abort = some k` means the
signal is aborted from check `k` on.
-/

/-- Whether the abort signal is already aborted at check index `i`. -/
def abortHit : Option Nat → Nat → Bool
  | none, _ => false
  | some k, i => decide (k ≤ i)

/-- One streamed tool-call fragment merged into the accumulator, with the
`onToolCallStart` / `onToolCallInput` callbacks it fires
(client.ts lines 288-302). -/
def fragStep1 (m : AccMap) (f : Frag) : AccMap × List Event :=
  let m₀ := if (accFind m f.index).isSome then m
            else accSet m f.index { id := f.id.getD "", name := "", arguments := "" }
  let b₀ := (accFind m₀ f.index).getD { id := "", name := "", arguments := "" }
  let b₁ := match f.id with
    | some i => if i ≠ "" then { b₀ with id := i } else b₀
    | none => b₀
  let b₂ := match f.name with
    | some n => if n ≠ "" then { b₁ with name := n } else b₁
    | none => b₁
  let e₂ : List Event := match f.name with
    | some n => if n ≠ "" then [Event.toolStart b₁.id n] else []
    | none => []
  let b₃ := match f.arguments with
    | some a => if a ≠ "" then { b₂ with arguments := b₂.arguments ++ a } else b₂
    | none => b₂
  let e₃ : List Event := match f.arguments with
    | some a => if a ≠ "" then [Event.toolInput b₂.id (b₂.arguments ++ a)] else []
    | none => []
  (accSet m₀ f.index b₃, e₂ ++ e₃)

/-- One fragment folded into an `(accumulator, events)` pair: merge via
`fragStep1` and append the fired callbacks. -/
def fragFold1 (st : AccMap × List Event) (f : Frag) : AccMap × List Event :=
  let (m', e') := fragStep1 st.1 f
  (m', st.2 ++ e')

/-- One choice processed (the body of the `for (const choice of
chunk.choices)` loop): a non-empty text fragment is appended to the text
buffer and forwarded as `onTextDelta`, then the tool-call fragments are
merged. -/
def choiceStep1 (st : String × AccMap × List Event) (c : Choice) :
    String × AccMap × List Event :=
  let t := match c.delta.content with
    | some s => if s ≠ "" then st.1 ++ s else st.1
    | none => st.1
  let evs := match c.delta.content with
    | some s => if s ≠ "" then st.2.2 ++ [Event.textDelta s] else st.2.2
    | none => st.2.2
  let r := c.delta.tool_calls.foldl fragFold1 (st.2.1, evs)
  (t, r.1, r.2)

/-- One chunk processed: every choice's text delta is forwarded and its
fragments merged. -/
def chunkStep1 (text : String) (m : AccMap) (ch : Chunk) :
    String × AccMap × List Event :=
  ch.choices.foldl choiceStep1 (text, m, [])

/-- Result of `AgentLoop.processRound`: the callbacks fired and the
assistant message pushed onto history (`none` when the method returned
`null`).  `entries` is a ghost observer recording the accumulator (with its
positional keys) at exit, used to state ordering properties; the code
itself only exposes `Array.from(toolCalls.values())`. -/
structure Round1Out where
  events : List Event
  message : Option ChatMessage
  entries : AccMap := []
deriving DecidableEq

/-- The tail of `processRound` after the streaming loop: fire `onTextDone`
when text accumulated, build the assistant message from the accumulator in
insertion order (`Array.from(toolCalls.values())`), and push it. -/
def finalize1 (text : String) (m : AccMap) (events : List Event) : Round1Out :=
  { events := if text ≠ "" then events ++ [Event.textDone text] else events,
    message := some
      { role := .assistant,
        content := if text = "" then none else some text,
        tool_calls := m.map (·.2) },
    entries := m }

/-- The streaming loop of `processRound`.  When the generator-side check
fires first the `for await` loop simply ends and control falls through to
`finalize1`; when the consumer-side check fires the method returns `null`. -/
def processRound1Aux (abort : Option Nat) :
    Nat → List Chunk → String → AccMap → List Event → Round1Out
  | _, [], text, m, events => finalize1 text m events
  | t, ch :: rest, text, m, events =>
    if abortHit abort (2 * t) then finalize1 text m events
    else if abortHit abort (2 * t + 1) then
      { events := events, message := none, entries := m }
    else
      let (text', m', evs) := chunkStep1 text m ch
      processRound1Aux abort (t + 1) rest text' m' (events ++ evs)

/-- `AgentLoop.processRound` on a stream that delivers `chunks` and the
abort instant `abort` (see the namespace comment). -/
def processRound1 (chunks : List Chunk) (abort : Option Nat) : Round1Out :=
  processRound1Aux abort 0 chunks "" [] []

/-- `MAX_TOOL_ROUNDS` (both implementations). -/
def maxToolRounds : Nat := 25

/-- The synthetic notice emitted when the round cap is exhausted
(client.ts line 255). -/
def maxRoundsNotice : String :=
  "\n\n*Reached maximum tool use rounds. Please continue the conversation to proceed.*"

/-- `SYSTEM_PROMPT` of client.ts. -/
def systemPrompt : String :=
  "You are Copilot Agent, an AI assistant embedded in Obsidian with full access to the user\x27s vault. You can read, write, and edit files, run bash commands, search for content, and explore the file system.\n\nKey behaviors:\n- Read files before modifying them. Understand existing code/content before making changes.\n- Use edit_file for targeted changes to existing files. Use write_file only for new files or full rewrites.\n- When searching for code, use grep with appropriate patterns. Use glob to discover file structure.\n- For bash commands, use appropriate tools (git, npm, etc.) and keep commands focused.\n- Be concise in your responses. Show your work through tool use, not lengthy explanations.\n- If a task requires multiple steps, execute them sequentially using the tools available.\n- Always operate within the vault directory. Never access files outside the vault."

/-- The system message installed by the `AgentLoop` constructor. -/
def systemMessage : ChatMessage :=
  { role := .system, content := some systemPrompt }

/-- `this.messages` right after the `AgentLoop` constructor ran. -/
def initMessages : List ChatMessage := [systemMessage]

/-- `AgentLoop.clearHistory`: the history it installs. -/
def clearHistory : List ChatMessage := [systemMessage]

/-- `AgentLoop.executeToolCalls` without an abort in flight: parse each
descriptor's arguments (a parse failure yields `{}`), execute, fire
`onToolCallComplete`, and collect the `tool` messages in order.  `pj` is the
`JSON.parse` oracle. -/
def executeToolCalls1 (pj : String → Option Args) (env : Env) :
    List ToolCall → List ChatMessage × List Event × Env
  | [] => ([], [], env)
  | tc :: rest =>
    let input := (pj tc.arguments).getD []
    let (result, fs') := Plugin.execute tc.name input env
    let (msgs, evs, env'') := executeToolCalls1 pj { env with fs := fs' } rest
    ({ role := .tool, content := some result.content, tool_call_id := some tc.id } :: msgs,
     Event.toolComplete tc.id tc.name result :: evs,
     env'')

/-- An abort in round `j` means the loop-top `if (signal.aborted) return`
of every later round sees an aborted signal. -/
def abortedBefore (abort : Option (Nat × Nat)) (r : Nat) : Bool :=
  match abort with
  | some (j, _) => decide (j < r)
  | none => false

/-- After the stream phase of round `r ≥ j` the signal is aborted, so
`executeToolCalls` breaks before its first dispatch and `send` returns. -/
def abortedByToolPhase (abort : Option (Nat × Nat)) (r : Nat) : Bool :=
  match abort with
  | some (j, _) => decide (j ≤ r)
  | none => false

/-- The abort check index handed to round `r`. -/
def roundAbortIdx (abort : Option (Nat × Nat)) (r : Nat) : Option Nat :=
  match abort with
  | some (j, k) => if r = j then some k else none
  | none => none

/-- Observable outcome of one `AgentLoop.send`. -/
structure Send1Out where
  messages : List ChatMessage
  events : List Event
  rounds : Nat
  tokenChecks : Nat
  fs : FS
deriving DecidableEq

/-- The `while (rounds < MAX_TOOL_ROUNDS)` loop of `AgentLoop.send`,
with `fuel = maxToolRounds - rounds` and `rounds` the counter so far.
`oracle r` is the chunk stream of round `r`.  The credential is obtained by
the single `ensureToken()` call before the loop, hence `tokenChecks := 1`
everywhere. -/
def sendLoop1 (oracle : Nat → List Chunk) (abort : Option (Nat × Nat))
    (pj : String → Option Args) :
    Nat → Nat → Env → List ChatMessage → List Event → Send1Out
  | 0, rounds, env, msgs, events =>
    { messages := msgs,
      events := events ++ [.textDelta maxRoundsNotice, .done],
      rounds := rounds, tokenChecks := 1, fs := env.fs }
  | fuel + 1, rounds, env, msgs, events =>
    if abortedBefore abort rounds then
      { messages := msgs, events := events, rounds := rounds, tokenChecks := 1, fs := env.fs }
    else
      let out := processRound1 (oracle rounds) (roundAbortIdx abort rounds)
      let events := events ++ out.events
      match out.message with
      | none =>
        { messages := msgs, events := events, rounds := rounds + 1,
          tokenChecks := 1, fs := env.fs }
      | some m =>
        let msgs := msgs ++ [m]
        if m.tool_calls = [] then
          { messages := msgs, events := events ++ [.done], rounds := rounds + 1,
            tokenChecks := 1, fs := env.fs }
        else if abortedByToolPhase abort rounds then
          { messages := msgs, events := events, rounds := rounds + 1,
            tokenChecks := 1, fs := env.fs }
        else
          let (tmsgs, tevs, env') := executeToolCalls1 pj env m.tool_calls
          sendLoop1 oracle abort pj fuel (rounds + 1) env' (msgs ++ tmsgs) (events ++ tevs)

/-- `AgentLoop.send`: push the user message and run the round loop. -/
def send1 (oracle : Nat → List Chunk) (abort : Option (Nat × Nat))
    (pj : String → Option Args) (env : Env) (msgs : List ChatMessage)
    (userMessage : String) : Send1Out :=
  sendLoop1 oracle abort pj maxToolRounds 0 env
    (msgs ++ [{ role := .user, content := some userMessage }]) []

end Plugin

namespace Service

/-!
### `CopilotService` (CopilotService.ts): `streamOneRound` and `query`

`Date.now()` is modelled by the per-round timestamp `now`; a stream either
ends normally or is interrupted by an exception, which the `catch` block
classifies as abort or error (`StreamEnding`).
-/

/-- The id synthesized for a tool call whose id is absent when its first
fragment arrives: `tc_${tc.index}_${Date.now()}`. -/
def synthId (index now : Nat) : String :=
  "tc_" ++ toString index ++ "_" ++ toString now

/-- One fragment merged into the accumulator
(CopilotService.ts lines 354-374): a new index synthesizes a missing id; an
existing index appends arguments and overwrites the name but never touches
the id. -/
def fragStep2 (now : Nat) (m : AccMap) (f : Frag) : AccMap :=
  match accFind m f.index with
  | none =>
    accSet m f.index
      { id := f.id.getD (synthId f.index now),
        name := f.name.getD "",
        arguments := f.arguments.getD "" }
  | some b =>
    let b := match f.arguments with
      | some a => if a ≠ "" then { b with arguments := b.arguments ++ a } else b
      | none => b
    let b := match f.name with
      | some n => if n ≠ "" then { b with name := n } else b
      | none => b
    accSet m f.index b

/-- One chunk processed by `streamOneRound`: only `choices[0]` is read
(`if (!choice) continue`). -/
def chunkStep2 (now : Nat) (st : String × AccMap × List Event) (ch : Chunk) :
    String × AccMap × List Event :=
  match ch.choices with
  | [] => st
  | c :: _ =>
    let t := match c.delta.content with
      | some s => if s ≠ "" then st.1 ++ s else st.1
      | none => st.1
    let evs := match c.delta.content with
      | some s => if s ≠ "" then st.2.2 ++ [Event.textDelta s] else st.2.2
      | none => st.2.2
    (t, c.delta.tool_calls.foldl (fragStep2 now) st.2.1, evs)

/-- How the chunk stream of one round ends. -/
inductive StreamEnding where
  | finished
  | errored (msg : String)
  | aborted
deriving DecidableEq

/-- The round result of `streamOneRound` plus the text events it yielded. -/
structure Round2Out where
  events : List Event
  textContent : String
  toolCalls : List ToolCall
  error : Option String := none
  aborted : Bool := false
deriving DecidableEq

/-- The accumulator entries sorted by ascending positional index
(`Array.from(toolCallsMap.entries()).sort(([a], [b]) => a - b)`). -/
def sortedEntries2 (m : AccMap) : AccMap :=
  sortBy (fun a b => decide (a.1 ≤ b.1)) m

/-- The accumulator state of `streamOneRound` after consuming `chunks`
(ghost observer: the `toolCallsMap` before finalization). -/
def roundAccum2 (now : Nat) (chunks : List Chunk) : AccMap :=
  (chunks.foldl (chunkStep2 now) ("", [], [])).2.1

/-- `CopilotService.streamOneRound` on a stream that delivers `chunks` and
then ends as `ending` (an exception interrupts after the delivered
chunks). -/
def streamOneRound2 (now : Nat) (chunks : List Chunk) (ending : StreamEnding) :
    Round2Out :=
  let st := chunks.foldl (chunkStep2 now) ("", [], [])
  match ending with
  | .aborted =>
    { events := st.2.2, textContent := st.1, toolCalls := [], aborted := true }
  | .errored e =>
    { events := st.2.2, textContent := st.1, toolCalls := [], error := some e }
  | .finished =>
    { events := st.2.2, textContent := st.1,
      toolCalls := (sortedEntries2 st.2.1).map (·.2) }

/-- The assistant message `query` appends for a round that produced tool
calls (`content: roundResult.textContent || null`). -/
def assistantOfRound (r : Round2Out) : ChatMessage :=
  { role := .assistant,
    content := if r.textContent = "" then none else some r.textContent,
    tool_calls := r.toolCalls }

/-- Tool execution of `CopilotService.query` (lines 273-294): per call,
yield `tool_use`, execute, yield `tool_result`, append the `tool`
message. -/
def executeToolCalls2 (pj : String → Option Args) (env : Env) :
    List ToolCall → List ChatMessage × List Event × Env
  | [] => ([], [], env)
  | tc :: rest =>
    let input := (pj tc.arguments).getD []
    let (result, fs') := Service.execute tc.name input env
    let (msgs, evs, env'') := executeToolCalls2 pj { env with fs := fs' } rest
    ({ role := .tool, content := some result.content, tool_call_id := some tc.id } :: msgs,
     Event.toolUse tc.id tc.name
       :: Event.toolResult tc.id result.content result.isError :: evs,
     env'')

/-- Observable outcome of one `CopilotService.query`. -/
structure Query2Out where
  messages : List ChatMessage
  events : List Event
  rounds : Nat
  expiryChecks : Nat
  refreshes : Nat
  fs : FS
deriving DecidableEq

/-- The `for (let round = 0; round < MAX_TOOL_ROUNDS; round++)` loop of
`CopilotService.query`.  `oracle r` gives round `r`'s stream, `nowAt r` its
timestamp, `expired r` the verdict of the `isTokenExpired` re-check that
runs after round `r`'s tool execution.  `expiryChecks` counts those
re-checks (the initial `ensureCopilotToken` is before the loop and not
counted). -/
def queryLoop2 (oracle : Nat → List Chunk × StreamEnding) (nowAt : Nat → Nat)
    (expired : Nat → Bool) (pj : String → Option Args) :
    Nat → Nat → Env → List ChatMessage → List Event → Nat → Nat → Query2Out
  | 0, round, env, msgs, events, checks, refr =>
    { messages := msgs,
      events := events ++ [.errorEv ("Max tool rounds (" ++ toString Plugin.maxToolRounds ++ ") exceeded")],
      rounds := round, expiryChecks := checks, refreshes := refr, fs := env.fs }
  | fuel + 1, round, env, msgs, events, checks, refr =>
    let (chunks, ending) := oracle round
    let r := streamOneRound2 (nowAt round) chunks ending
    let events := events ++ r.events
    if r.aborted then
      { messages := msgs, events := events, rounds := round + 1,
        expiryChecks := checks, refreshes := refr, fs := env.fs }
    else
      match r.error with
      | some e =>
        { messages := msgs, events := events ++ [.errorEv e], rounds := round + 1,
          expiryChecks := checks, refreshes := refr, fs := env.fs }
      | none =>
        if r.toolCalls = [] then
          { messages := msgs, events := events ++ [.done], rounds := round + 1,
            expiryChecks := checks, refreshes := refr, fs := env.fs }
        else
          let msgs := msgs ++ [assistantOfRound r]
          let (tmsgs, tevs, env') := executeToolCalls2 pj env r.toolCalls
          queryLoop2 oracle nowAt expired pj fuel (round + 1) env'
            (msgs ++ tmsgs) (events ++ tevs) (checks + 1)
            (refr + if expired round then 1 else 0)

/-- `CopilotService.query` after a successful initial token fetch, starting
from the message list `buildMessages` produced. -/
def query2 (oracle : Nat → List Chunk × StreamEnding) (nowAt : Nat → Nat)
    (expired : Nat → Bool) (pj : String → Option Args) (env : Env)
    (msgs : List ChatMessage) : Query2Out :=
  queryLoop2 oracle nowAt expired pj Plugin.maxToolRounds 0 env msgs [] 0 0

end Service

/-! ## Concrete fixtures used by the closed theorems and witnesses -/

/-- A shell oracle on which every command reports success with no output. -/
def trivSh : String → ShellRes :=
  fun _ => { errored := false, killed := false, errMsg := "", stdout := "", stderr := "" }

/-- An executor environment over the empty filesystem. -/
def trivEnv : Env := { root := "/v", fs := [], sh := trivSh }

/-- The executor environment of the path-confinement scenario. -/
def vaultEnv : Env := { root := "/vault", fs := [], sh := trivSh }

/-- A `JSON.parse` oracle that always fails (so arguments default to `{}`). -/
def noParse : String → Option Args := fun _ => none

/-- A chunk carrying one text fragment. -/
def textChunk (s : String) : Chunk :=
  { choices := [{ delta := { content := some s } }] }

/-- A chunk carrying one tool-call fragment. -/
def fragChunk (f : Frag) : Chunk :=
  { choices := [{ delta := { tool_calls := [f] } }] }

/-- A round that requests one tool call named `noop`. -/
def noopChunk : Chunk := fragChunk { index := 0, name := some "noop" }

/-- A model that requests a tool call in every round (`AgentLoop` stream
shape). -/
def alwaysToolOracle1 : Nat → List Chunk := fun _ => [noopChunk]

/-- The assistant message `AgentLoop.processRound` produces for a
`noopChunk` round. -/
def noopAssistantMsg : ChatMessage :=
  { role := .assistant, content := none,
    tool_calls := [{ id := "", name := "noop", arguments := "" }] }

/-- A model that requests a tool call in every round (`CopilotService`
stream shape). -/
def alwaysToolOracle2 : Nat → List Chunk × Service.StreamEnding :=
  fun _ => ([noopChunk], .finished)

/-- Two tool calls revealed out of positional order: index 1 (`glob`)
before index 0 (`grep`). -/
def outOfOrderChunks : List Chunk :=
  [fragChunk { index := 1, name := some "glob" },
   fragChunk { index := 0, name := some "grep" }]

/-- The fixed tool names dispatched by both executors. -/
def toolNames : List String :=
  ["read_file", "write_file", "edit_file", "bash", "grep", "glob", "list_directory"]

/-- A chunk made of one choice carrying the given tool-call fragments and no
text (used to quantify over fragment-to-chunk groupings). -/
def fragsToChunk (fs : List Frag) : Chunk :=
  { choices := [{ delta := { tool_calls := fs } }] }

/-- The history invariant of claim C10: the first message is the fixed
system-prompt message (in particular the list is non-empty). -/
def historyInv (msgs : List ChatMessage) : Prop :=
  msgs.head? = some Plugin.systemMessage

end Lucidian

namespace Lucidian

set_option maxRecDepth 40000

/-! ## Claim theorems -/

/-- Claim C1 (the claim fails on the code — this theorem evaluates the code
at the failing input).  Both `resolvePath`s guard with a bare
`resolved.startsWith(vaultPath)`, so a path that resolves outside the root
into a sibling directory sharing the root as a string prefix is accepted:
with root `/vault`, the argument `../vaultEvil/x` resolves to
`/vaultEvil/x`, which is outside the root, yet `write_file` succeeds
(`isError: false`) and mutates the filesystem outside the root.  The claim
requires `isError: true` and no mutation for every resolution outside the
root. -/
theorem c1_path_confinement_theorem :
    Plugin.resolvePath "/vault" "../vaultEvil/x" = Except.ok "/vaultEvil/x"
    ∧ withinRoot "/vault" "/vaultEvil/x" = false
    ∧ Plugin.execute "write_file"
        [("file_path", .str "../vaultEvil/x"), ("content", .str "hi")] vaultEnv
      = ({ content := "Wrote 1 lines to ../vaultEvil/x", isError := false },
         [("/vaultEvil/x", "hi")])
    ∧ Service.resolvePath "/vault" "../vaultEvil/x" = Except.ok "/vaultEvil/x" :=
  ⟨rfl, by decide, by decide, rfl⟩

/-- Claim C5 (the claim fails on the code — this theorem evaluates the code
at the failing input).  In `AgentLoop`, the abort signal is checked inside
the chunk loop of `processRound` but not after it: when cancel fires
mid-stream and the generator-side check in `streamChat` observes it first
(here: after chunk 0 of a 2-chunk stream, check index 2), the `for await`
loop simply ends, `processRound` falls through, pushes the in-flight
assistant message onto history, and `send` — seeing no tool calls — emits a
completion event.  The claim requires the history to be unchanged and no
completion event for the cancelled round. -/
theorem c5_cancellation_theorem :
    (Plugin.send1 (fun _ => [textChunk "hi", textChunk "!"]) (some (0, 2)) noParse trivEnv
        Plugin.initMessages "go").messages
      = Plugin.initMessages
        ++ [{ role := .user, content := some "go" },
            { role := .assistant, content := some "hi" }]
    ∧ (Plugin.send1 (fun _ => [textChunk "hi", textChunk "!"]) (some (0, 2)) noParse trivEnv
        Plugin.initMessages "go").events
      = [.textDelta "hi", .textDone "hi", .done] := by
  decide

/-- Claim C3, counterexample: with a model that requests one tool call in
every round, `CopilotService.query` does run exactly 25 rounds, but it then
yields an error chunk `Max tool rounds (25) exceeded` and never a `done`
event — it does not complete normally with the max-rounds notice, contrary
to the claim. -/
theorem c3_round_cap_counterexample :
    (Service.query2 alwaysToolOracle2 (fun _ => 0) (fun _ => false) noParse trivEnv []).rounds
      = Plugin.maxToolRounds
    ∧ (Service.query2 alwaysToolOracle2 (fun _ => 0) (fun _ => false) noParse trivEnv []).events.getLast?
      = some (.errorEv "Max tool rounds (25) exceeded")
    ∧ Event.done
        ∉ (Service.query2 alwaysToolOracle2 (fun _ => 0) (fun _ => false) noParse trivEnv []).events := by
  decide

/-- Claim C4, counterexample: when the two tool calls of a round are first
revealed out of positional order (index 1 before index 0),
`AgentLoop.processRound` returns the descriptors in discovery order
(`Array.from(map.values())` — JS `Map` insertion order), not sorted by
ascending positional index: the entry keys at finalization are `[1, 0]`,
and the returned names are `["glob", "grep"]` where ascending index order
is `["grep", "glob"]` (which is what `CopilotService.streamOneRound`
returns). -/
theorem c4_ordering_counterexample :
    (Plugin.processRound1 outOfOrderChunks none).entries.map Prod.fst = [1, 0]
    ∧ ¬ List.Sorted (· ≤ ·) ((Plugin.processRound1 outOfOrderChunks none).entries.map Prod.fst)
    ∧ ((Plugin.processRound1 outOfOrderChunks none).message.map
        fun m => m.tool_calls.map (·.name)) = some ["glob", "grep"]
    ∧ (Service.streamOneRound2 7 outOfOrderChunks .finished).toolCalls.map (·.name)
      = ["grep", "glob"] := by
  decide

/-- Claim C8, counterexample: the two halves of the claim each fail on one
implementation.  `CopilotService.streamOneRound` synthesizes
`tc_0_77` for a call whose id is missing at creation but then ignores the
id `call_real` arriving in a later fragment; `AgentLoop.processRound` never
synthesizes — two calls whose ids never arrive both end with id `""`, so
descriptor ids are not unique within the round. -/
theorem c8_identity_counterexample :
    (Service.streamOneRound2 77
        [fragChunk { index := 0, name := some "grep" },
         fragChunk { index := 0, id := some "call_real" }] .finished).toolCalls
      = [{ id := "tc_0_77", name := "grep", arguments := "" }]
    ∧ ((Plugin.processRound1
        [fragChunk { index := 0, name := some "grep" },
         fragChunk { index := 1, name := some "glob" }] none).message.map
          fun m => m.tool_calls.map (·.id))
      = some ["", ""] := by
  decide

/-- Claim C2: the `try`/`catch` wrapper makes `execute` total.  In both
executors: a handler that throws (`tryExecute = .error e`) yields the
captured result `{content: "Error: " ++ e, isError: true}` with the
filesystem untouched, a handler that returns yields that result unchanged,
and an unknown tool name yields `{content: "Unknown tool: …",
isError: true}`.  (`execute`'s type is exception-free, so the embedding can
only be total; the content of the claim is the shape of the captured
failures.) -/
theorem c2_execute_total (toolName : String) (args : Args) (env : Env) :
    (∀ e, Plugin.tryExecute toolName args env = .error e →
        Plugin.execute toolName args env
          = ({ content := "Error: " ++ e, isError := true }, env.fs))
    ∧ (∀ r, Plugin.tryExecute toolName args env = .ok r →
        Plugin.execute toolName args env = r)
    ∧ (toolName ∉ toolNames →
        Plugin.execute toolName args env
          = ({ content := "Unknown tool: " ++ toolName, isError := true }, env.fs))
    ∧ (∀ e, Service.tryExecute toolName args env = .error e →
        Service.execute toolName args env
          = ({ content := "Error: " ++ e, isError := true }, env.fs))
    ∧ (∀ r, Service.tryExecute toolName args env = .ok r →
        Service.execute toolName args env = r)
    ∧ (toolName ∉ toolNames →
        Service.execute toolName args env
          = ({ content := "Unknown tool: " ++ toolName, isError := true }, env.fs)) := by
  refine ⟨fun e h => ?_, fun r h => ?_, fun h => ?_, fun e h => ?_, fun r h => ?_, fun h => ?_⟩
  · simp [Plugin.execute, h]
  · simp [Plugin.execute, h]
  · simp only [toolNames, List.mem_cons, List.not_mem_nil, or_false, not_or] at h
    obtain ⟨h1, h2, h3, h4, h5, h6, h7⟩ := h
    simp [Plugin.execute, Plugin.tryExecute, h1, h2, h3, h4, h5, h6, h7]
  · simp [Service.execute, h]
  · simp [Service.execute, h]
  · simp only [toolNames, List.mem_cons, List.not_mem_nil, or_false, not_or] at h
    obtain ⟨h1, h2, h3, h4, h5, h6, h7⟩ := h
    simp [Service.execute, Service.tryExecute, h1, h2, h3, h4, h5, h6, h7]

/-- Witness for C2: a read of a missing file throws `ENOENT` inside the
handler and is returned as a captured error result; an unknown tool name is
reported as such. -/
theorem c2_execute_total_witness :
    Plugin.execute "read_file" [("file_path", JsVal.str "nope.md")] trivEnv
      = ({ content := "Error: ENOENT: no such file or directory, open \x27/v/nope.md\x27",
           isError := true }, [])
    ∧ Service.execute "frobnicate" [] trivEnv
      = ({ content := "Unknown tool: frobnicate", isError := true }, []) :=
  ⟨(c2_execute_total "read_file" [("file_path", JsVal.str "nope.md")] trivEnv).1
      "ENOENT: no such file or directory, open \x27/v/nope.md\x27" rfl,
   (c2_execute_total "frobnicate" [] trivEnv).2.2.2.2.2 (by decide)⟩

/-- Helper: a list is a `isPrefixOf` of itself followed by anything. -/
theorem isPrefixOf_append_self (l r : List Char) : l.isPrefixOf (l ++ r) = true := by
  induction l with
  | nil => simp [List.isPrefixOf]
  | cons a as ih => simp [List.isPrefixOf, ih]

/-- Helper: a prefix is an infix. -/
theorem listIsInfix_of_isPrefixOf {sub l : List Char} (h : sub.isPrefixOf l = true) :
    listIsInfix sub l = true := by
  cases l with
  | nil =>
    cases sub with
    | nil => simp [listIsInfix]
    | cons a as => simp [List.isPrefixOf] at h
  | cons c cs => simp [listIsInfix, h]

/-- Helper: extending a list on the left preserves infixes. -/
theorem listIsInfix_cons {sub l : List Char} (c : Char) (h : listIsInfix sub l = true) :
    listIsInfix sub (c :: l) = true := by
  simp [listIsInfix, h]

/-- Helper: the middle part of a concatenation is an infix. -/
theorem listIsInfix_middle (pre sub post : List Char) :
    listIsInfix sub (pre ++ sub ++ post) = true := by
  induction pre with
  | nil => exact listIsInfix_of_isPrefixOf (isPrefixOf_append_self sub post)
  | cons c pre ih => exact listIsInfix_cons c ih

/-- Helper: `(a ++ b ++ c).includes(b)` is true. -/
theorem strContains_middle (a b c : String) : strContains (a ++ b ++ c) b = true := by
  unfold strContains
  rw [String.data_append, String.data_append]
  exact listIsInfix_middle a.data b.data c.data

/-- Helper: `GetSubstitution` is the identity on a replacement containing
no dollar sign. -/
theorem getSubstitution_no_dollar (m p f : List Char) :
    ∀ rep : List Char, '$' ∉ rep → getSubstitution m p f rep = rep := by
  intro rep
  induction rep with
  | nil => intro _; rfl
  | cons c rest ih =>
    intro h
    simp only [List.mem_cons, not_or] at h
    obtain ⟨hc, hrest⟩ := h
    have hc' : c ≠ '$' := fun hx => hc hx.symm
    cases rest with
    | nil => simp [getSubstitution, hc']
    | cons d rest' =>
      rw [show getSubstitution m p f (c :: d :: rest')
          = c :: getSubstitution m p f (d :: rest') from by
        simp [getSubstitution, hc']]
      rw [ih hrest]

/-- Helper: with a dollar-free replacement the code's replacement equals
the literal splice. -/
theorem replaceFirstAux_no_dollar (pat rep : List Char) (h : '$' ∉ rep) :
    ∀ (l pre : List Char),
      replaceFirstAux pat rep pre l = specReplaceFirstAux pat rep l := by
  intro l
  induction l with
  | nil => intro pre; rfl
  | cons c cs ih =>
    intro pre
    simp only [replaceFirstAux, specReplaceFirstAux]
    split_ifs with hp
    · rw [getSubstitution_no_dollar _ _ _ rep h]
    · rw [ih]

/-- Helper: with a dollar-free `new_string`, `content.replace(old, new)`
is the literal splice the spec describes. -/
theorem jsReplaceFirst_no_dollar (s pat rep : String) (h : '$' ∉ rep.data) :
    jsReplaceFirst s pat rep = specReplaceFirst s pat rep := by
  unfold jsReplaceFirst specReplaceFirst
  cases hp : pat.data with
  | nil =>
    show ({ data := getSubstitution [] [] s.data rep.data ++ s.data } : String) = rep ++ s
    rw [getSubstitution_no_dollar _ _ _ rep.data h]
    cases rep
    cases s
    rfl
  | cons p0 prest =>
    show ({ data := replaceFirstAux (p0 :: prest) rep.data [] s.data } : String)
      = { data := specReplaceFirstAux (p0 :: prest) rep.data s.data }
    rw [replaceFirstAux_no_dollar (p0 :: prest) rep.data h s.data []]

/-- Claim C6, counterexample: both editors perform the replacement with
JS `content.replace(old_string, new_string)`, which expands `$`-patterns
in the replacement.  With file content `aXb`, `old_string = "X"`
(exactly one occurrence) and `new_string = "$&"`, the edit reports success
but writes `aXb` back — the occurrence is *not* replaced by the literal
`new_string` (which would give `a$&b`); the file is in fact unchanged. -/
theorem c6_edit_unique_counterexample :
    Plugin.countOccurrences "aXb" "X" = 1
    ∧ Plugin.execute "edit_file"
        [("file_path", .str "n.md"), ("old_string", .str "X"), ("new_string", .str "$&")]
        { root := "/v", fs := [("/v/n.md", "aXb")], sh := trivSh }
      = ({ content := "Edited n.md successfully", isError := false },
         [("/v/n.md", "aXb")])
    ∧ Service.execute "edit_file"
        [("file_path", .str "n.md"), ("old_string", .str "X"), ("new_string", .str "$&")]
        { root := "/v", fs := [("/v/n.md", "aXb")], sh := trivSh }
      = ({ content := "File edited: n.md", isError := false },
         [("/v/n.md", "aXb")])
    ∧ specReplaceFirst "aXb" "X" "$&" = "a$&b"
    ∧ ("aXb" : String) ≠ "a$&b" := by
  decide

/-- Claim C6, amended: `edit` requires the literal `old_string` to occur
exactly once, the occurrence count being computed exactly as the code
computes it (`content.split(old_string).length - 1`).  Given a path that
resolves inside the root and a file with the given content, in both
executors: zero occurrences yields a not-found error with the file
unchanged; more than one yields a distinct error whose message contains
the occurrence count, with the file unchanged; exactly one reports success
and writes `content.replace(old_string, new_string)`, which expands the
JS replacement patterns `$$`, `$&`, dollar-backtick and dollar-apostrophe
in `new_string` — so the occurrence is replaced by the literal
`new_string` exactly when `new_string` contains no dollar sign (final
conjunct). -/
theorem c6_edit_unique_amended (root rel old new content : String) (fs : FS)
    (sh : String → ShellRes)
    (hok : strStartsWith (pathResolve root rel) root = true)
    (hread : fsRead fs (pathResolve root rel) = some content) :
    (Plugin.countOccurrences content old = 0 →
      Plugin.execute "edit_file"
          [("file_path", .str rel), ("old_string", .str old), ("new_string", .str new)]
          { root := root, fs := fs, sh := sh }
        = ({ content := "old_string not found in " ++ rel, isError := true }, fs)
      ∧ Service.execute "edit_file"
          [("file_path", .str rel), ("old_string", .str old), ("new_string", .str new)]
          { root := root, fs := fs, sh := sh }
        = ({ content := "old_string not found in file", isError := true }, fs))
    ∧ (Plugin.countOccurrences content old > 1 →
      Plugin.execute "edit_file"
          [("file_path", .str rel), ("old_string", .str old), ("new_string", .str new)]
          { root := root, fs := fs, sh := sh }
        = ({ content := "old_string found " ++ toString (Plugin.countOccurrences content old)
               ++ (" times in " ++ rel ++ " — must be unique. Provide more surrounding context."),
             isError := true }, fs)
      ∧ strContains
          ("old_string found " ++ toString (Plugin.countOccurrences content old)
            ++ (" times in " ++ rel ++ " — must be unique. Provide more surrounding context."))
          (toString (Plugin.countOccurrences content old)) = true
      ∧ Service.execute "edit_file"
          [("file_path", .str rel), ("old_string", .str old), ("new_string", .str new)]
          { root := root, fs := fs, sh := sh }
        = ({ content := "old_string found " ++ toString (Plugin.countOccurrences content old)
               ++ " times (must be unique)", isError := true }, fs)
      ∧ strContains
          ("old_string found " ++ toString (Plugin.countOccurrences content old)
            ++ " times (must be unique)")
          (toString (Plugin.countOccurrences content old)) = true)
    ∧ (Plugin.countOccurrences content old = 1 →
      Plugin.execute "edit_file"
          [("file_path", .str rel), ("old_string", .str old), ("new_string", .str new)]
          { root := root, fs := fs, sh := sh }
        = ({ content := "Edited " ++ rel ++ " successfully", isError := false },
           fsWrite fs (pathResolve root rel) (jsReplaceFirst content old new))
      ∧ Service.execute "edit_file"
          [("file_path", .str rel), ("old_string", .str old), ("new_string", .str new)]
          { root := root, fs := fs, sh := sh }
        = ({ content := "File edited: " ++ rel, isError := false },
           fsWrite fs (pathResolve root rel) (jsReplaceFirst content old new)))
    ∧ ('$' ∉ String.data new →
      jsReplaceFirst content old new = specReplaceFirst content old new) := by
  have hres1 : Plugin.resolvePath root rel = .ok (pathResolve root rel) := by
    simp [Plugin.resolvePath, hok]
  have hres2 : Service.resolvePath root rel = .ok (pathResolve root rel) := by
    simp [Service.resolvePath, hok]
  have hfre : fsReadE fs (pathResolve root rel) = .ok content := by
    simp [fsReadE, hread]
  refine ⟨fun h0 => ⟨?_, ?_⟩, fun h1 => ⟨?_, ?_, ?_, ?_⟩, fun h1 => ⟨?_, ?_⟩,
    fun hd => jsReplaceFirst_no_dollar content old new hd⟩
  · simp [Plugin.execute, Plugin.tryExecute, Plugin.editFileT, hres1, hfre, getArg,
      jsToString, h0, Bind.bind, Except.bind, Pure.pure, Except.pure]
  · simp [Service.execute, Service.tryExecute, Service.editFileT, hres2, hfre, getArg,
      jsToString, h0, Bind.bind, Except.bind, Pure.pure, Except.pure]
  · have hne : ¬(Plugin.countOccurrences content old = 0) := by omega
    simp [Plugin.execute, Plugin.tryExecute, Plugin.editFileT, hres1, hfre, getArg,
      jsToString, hne, h1, Bind.bind, Except.bind, Pure.pure, Except.pure, String.append_assoc]
  · have : "old_string found " ++ toString (Plugin.countOccurrences content old)
        ++ (" times in " ++ rel ++ " — must be unique. Provide more surrounding context.")
        = "old_string found " ++ toString (Plugin.countOccurrences content old)
          ++ (" times in " ++ rel ++ " — must be unique. Provide more surrounding context.") := rfl
    exact strContains_middle "old_string found " _ _
  · have hne : ¬(Plugin.countOccurrences content old = 0) := by omega
    simp [Service.execute, Service.tryExecute, Service.editFileT, hres2, hfre, getArg,
      jsToString, hne, h1, Bind.bind, Except.bind, Pure.pure, Except.pure, String.append_assoc]
  · exact strContains_middle "old_string found " _ _
  · simp [Plugin.execute, Plugin.tryExecute, Plugin.editFileT, hres1, hfre, getArg,
      jsToString, h1, Bind.bind, Except.bind, Pure.pure, Except.pure, String.append_assoc]
  · simp [Service.execute, Service.tryExecute, Service.editFileT, hres2, hfre, getArg,
      jsToString, h1, Bind.bind, Except.bind, Pure.pure, Except.pure, String.append_assoc]

/-- Witness for C6 (amended): a file containing `X` three times is
rejected with a message containing `3` and left unchanged; a file
containing `X` once is edited, and the dollar-free replacement `Y` is
spliced literally. -/
theorem c6_edit_unique_amended_witness :
    Plugin.countOccurrences "aXbXcXd" "X" > 1
    ∧ Plugin.execute "edit_file"
        [("file_path", .str "n.md"), ("old_string", .str "X"), ("new_string", .str "Y")]
        { root := "/v", fs := [("/v/n.md", "aXbXcXd")], sh := trivSh }
      = ({ content := "old_string found " ++ toString (Plugin.countOccurrences "aXbXcXd" "X")
             ++ (" times in " ++ "n.md" ++ " — must be unique. Provide more surrounding context."),
           isError := true }, [("/v/n.md", "aXbXcXd")])
    ∧ Plugin.countOccurrences "aXb" "X" = 1
    ∧ Plugin.execute "edit_file"
        [("file_path", .str "n.md"), ("old_string", .str "X"), ("new_string", .str "Y")]
        { root := "/v", fs := [("/v/n.md", "aXb")], sh := trivSh }
      = ({ content := "Edited " ++ "n.md" ++ " successfully", isError := false },
         fsWrite [("/v/n.md", "aXb")] (pathResolve "/v" "n.md") (jsReplaceFirst "aXb" "X" "Y"))
    ∧ jsReplaceFirst "aXb" "X" "Y" = specReplaceFirst "aXb" "X" "Y" :=
  ⟨by decide,
   ((c6_edit_unique_amended "/v" "n.md" "X" "Y" "aXbXcXd" [("/v/n.md", "aXbXcXd")] trivSh
      (by decide) (by decide)).2.1 (by decide)).1,
   by decide,
   ((c6_edit_unique_amended "/v" "n.md" "X" "Y" "aXb" [("/v/n.md", "aXb")] trivSh
      (by decide) (by decide)).2.2.1 (by decide)).1,
   (c6_edit_unique_amended "/v" "n.md" "X" "Y" "aXb" [("/v/n.md", "aXb")] trivSh
      (by decide) (by decide)).2.2.2 (by decide)⟩

/-- Helper: `map.get` after `map.set` at the same key. -/
theorem accFind_accSet_self (m : AccMap) (i : Nat) (b : ToolCall) :
    accFind (accSet m i b) i = some b := by
  induction m with
  | nil => simp [accFind, accSet, List.find?]
  | cons e rest ih =>
    obtain ⟨j, c⟩ := e
    by_cases h : j = i
    · have h1 : (j == i) = true := beq_iff_eq.mpr h
      simp [accFind, accSet, List.find?, h1, h]
    · have h1 : (j == i) = false := beq_eq_false_iff_ne.mpr h
      simpa [accFind, accSet, List.find?, h1] using ih

/-- Helper: `map.get` after `map.set` at a different key. -/
theorem accFind_accSet_ne (m : AccMap) (i : Nat) (b : ToolCall) (j : Nat)
    (h : j ≠ i) : accFind (accSet m i b) j = accFind m j := by
  induction m with
  | nil =>
    have hij : (i == j) = false := beq_eq_false_iff_ne.mpr (Ne.symm h)
    simp [accFind, accSet, List.find?, hij]
  | cons e rest ih =>
    obtain ⟨k, c⟩ := e
    by_cases hk : k = i
    · have h1 : (k == i) = true := beq_iff_eq.mpr hk
      have h2 : (k == j) = false := beq_eq_false_iff_ne.mpr (hk ▸ Ne.symm h)
      simp [accFind, accSet, List.find?, h1, h2]
    · have h1 : (k == i) = false := beq_eq_false_iff_ne.mpr hk
      by_cases hkj : k = j
      · have h2 : (k == j) = true := beq_iff_eq.mpr hkj
        simp [accFind, accSet, List.find?, h1, h2]
      · have h2 : (k == j) = false := beq_eq_false_iff_ne.mpr hkj
        simpa [accFind, accSet, List.find?, h1, h2] using ih

/-- Helper: `fragStep1` leaves every other positional index untouched. -/
theorem fragStep1_other (m : AccMap) (f : Frag) (j : Nat) (h : j ≠ f.index) :
    accFind (Plugin.fragStep1 m f).1 j = accFind m j := by
  unfold Plugin.fragStep1
  simp only
  rw [accFind_accSet_ne _ _ _ _ h]
  by_cases hm : (accFind m f.index).isSome
  · simp [hm]
  · simp [hm, accFind_accSet_ne _ _ _ _ h]

/-- Helper: `fragStep2` leaves every other positional index untouched. -/
theorem fragStep2_other (now : Nat) (m : AccMap) (f : Frag) (j : Nat)
    (h : j ≠ f.index) :
    accFind (Service.fragStep2 now m f) j = accFind m j := by
  unfold Service.fragStep2
  cases hm : accFind m f.index <;>
    simp [hm, accFind_accSet_ne _ _ _ _ h]

/-- Claim C8, amended: identity is keyed by the positional index in both
implementations (a fragment only ever touches the builder at its own
index).  Beyond that the two implementations split the claim:
`AgentLoop.processRound` records a late-arriving id on the builder, but a
never-arriving id is left as `""` (nothing is synthesized);
`CopilotService.streamOneRound` synthesizes `tc_<index>_<timestamp>` when
the id is absent at creation (deterministic in position and timestamp), but
an id arriving in a later fragment is ignored. -/
theorem c8_identity_amended :
    (∀ m f j, j ≠ Frag.index f →
      accFind (Plugin.fragStep1 m f).1 j = accFind m j)
    ∧ (∀ now m f j, j ≠ Frag.index f →
      accFind (Service.fragStep2 now m f) j = accFind m j)
    ∧ (∀ m f b i, accFind m (Frag.index f) = some b → Frag.id f = some i → i ≠ "" →
      (accFind (Plugin.fragStep1 m f).1 (Frag.index f)).map (·.id) = some i)
    ∧ (∀ m f, accFind m (Frag.index f) = none → Frag.id f = none →
      (accFind (Plugin.fragStep1 m f).1 (Frag.index f)).map (·.id) = some "")
    ∧ (∀ now m f, accFind m (Frag.index f) = none → Frag.id f = none →
      (accFind (Service.fragStep2 now m f) (Frag.index f)).map (·.id)
        = some (Service.synthId (Frag.index f) now))
    ∧ (∀ now m f b, accFind m (Frag.index f) = some b →
      (accFind (Service.fragStep2 now m f) (Frag.index f)).map (·.id) = some b.id) := by
  refine ⟨fragStep1_other, fragStep2_other, ?_, ?_, ?_, ?_⟩
  · intro m f b i hm hid hne
    unfold Plugin.fragStep1
    simp only [hm, hid, Option.isSome_some, if_true, Option.getD_some]
    rw [accFind_accSet_self]
    rcases hfn : f.name with _ | n <;> rcases hfa : f.arguments with _ | a <;>
      simp [hfn, hfa, hne] <;> split_ifs <;> simp_all
  · intro m f hm hid
    unfold Plugin.fragStep1
    simp only [hm, hid, Option.isSome_none, Bool.false_eq_true, if_false,
      Option.getD_none]
    rw [accFind_accSet_self]
    rcases hfn : f.name with _ | n <;> rcases hfa : f.arguments with _ | a <;>
      simp [hfn, hfa, accFind_accSet_self] <;> split_ifs <;> simp_all
  · intro now m f hm hid
    unfold Service.fragStep2
    simp [hm, hid, accFind_accSet_self]
  · intro now m f b hm
    unfold Service.fragStep2
    simp only [hm]
    rcases hfn : f.name with _ | n <;> rcases hfa : f.arguments with _ | a <;>
      simp [hfn, hfa, accFind_accSet_self] <;> split_ifs <;> simp_all

/-- Witness for C8 (amended): a fragment creating index 3 with no id under
timestamp 42 gets the synthesized id `tc_3_42` in `streamOneRound`; the
same fragment in `AgentLoop` gets id `""`; and a fragment for index 5 does
not touch index 3. -/
theorem c8_identity_amended_witness :
    (accFind (Service.fragStep2 42 [] { index := 3, name := some "grep" }) 3).map (·.id)
      = some (Service.synthId 3 42)
    ∧ Service.synthId 3 42 = "tc_3_42"
    ∧ (accFind (Plugin.fragStep1 [] { index := 3, name := some "grep" }).1 3).map (·.id)
      = some ""
    ∧ accFind
        (Service.fragStep2 42 (Service.fragStep2 42 [] { index := 3, name := some "grep" })
          { index := 5, name := some "glob" }) 3
      = accFind (Service.fragStep2 42 [] { index := 3, name := some "grep" }) 3 :=
  ⟨c8_identity_amended.2.2.2.2.1 42 [] { index := 3, name := some "grep" } rfl rfl,
   by decide,
   c8_identity_amended.2.2.2.1 [] { index := 3, name := some "grep" } rfl rfl,
   c8_identity_amended.2.1 42 (Service.fragStep2 42 [] { index := 3, name := some "grep" })
     { index := 5, name := some "glob" } 3 (by decide)⟩

/-- Helper: membership in `insertBy`. -/
theorem mem_insertBy {α} (le : α → α → Bool) (x : α) :
    ∀ (l : List α) (b : α), b ∈ insertBy le x l ↔ b = x ∨ b ∈ l := by
  intro l
  induction l with
  | nil => simp [insertBy]
  | cons y ys ih =>
    intro b
    cases h : le x y
    · simp only [insertBy, h, Bool.false_eq_true, if_false, List.mem_cons, ih]
      tauto
    · simp only [insertBy, h, if_true, List.mem_cons]

/-- Helper: `insertBy` preserves sortedness for a total transitive boolean
comparator. -/
theorem sorted_insertBy {α} (le : α → α → Bool)
    (htot : ∀ a b, le a b || le b a)
    (htrans : ∀ a b c, le a b = true → le b c = true → le a c = true)
    (x : α) :
    ∀ (l : List α), List.Sorted (fun a b => le a b = true) l →
      List.Sorted (fun a b => le a b = true) (insertBy le x l) := by
  intro l
  induction l with
  | nil => intro _; simp [insertBy]
  | cons y ys ih =>
    intro hs
    rw [List.sorted_cons] at hs
    cases h : le x y
    · simp only [insertBy, h, Bool.false_eq_true, if_false]
      rw [List.sorted_cons]
      constructor
      · intro b hb
        rcases (mem_insertBy le x ys b).mp hb with hbx | hb
        · rw [hbx]
          have := htot x y
          simp [h] at this
          exact this
        · exact hs.1 b hb
      · exact ih hs.2
    · simp only [insertBy, h, if_true]
      rw [List.sorted_cons]
      constructor
      · intro b hb
        rcases List.mem_cons.mp hb with rfl | hb
        · exact h
        · exact htrans x y b h (hs.1 b hb)
      · rw [List.sorted_cons]
        exact hs

/-- Helper: `sortBy` sorts for a total transitive boolean comparator. -/
theorem sorted_sortBy {α} (le : α → α → Bool)
    (htot : ∀ a b, le a b || le b a)
    (htrans : ∀ a b c, le a b = true → le b c = true → le a c = true) :
    ∀ (l : List α), List.Sorted (fun a b => le a b = true) (sortBy le l) := by
  intro l
  induction l with
  | nil => simp [sortBy]
  | cons x xs ih => exact sorted_insertBy le htot htrans x (sortBy le xs) ih

/-- Helper: the index-comparing entry order is sorted by `sortedEntries2`. -/
theorem sorted_sortedEntries2 (m : AccMap) :
    List.Sorted (fun a b : Nat × ToolCall => a.1 ≤ b.1) (Service.sortedEntries2 m) := by
  have h := sorted_sortBy (fun a b : Nat × ToolCall => decide (a.1 ≤ b.1))
    (fun a b => by rcases Nat.le_total a.1 b.1 with h | h <;> simp [h])
    (fun a b c h1 h2 => by
      simp only [decide_eq_true_eq] at h1 h2 ⊢
      exact le_trans h1 h2)
    m
  unfold Service.sortedEntries2
  exact h.imp fun {a b} hab => by simpa using hab

/-- Claim C4, amended: `CopilotService.streamOneRound` returns the round's
descriptors sorted by ascending positional index, for every chunk sequence
and however ids, names or argument slices were revealed;
`AgentLoop.processRound`, by contrast, returns them in discovery order (the
accumulator's insertion order), which coincides with ascending index only
when first fragments arrive in index order. -/
theorem c4_ordering_amended (now : Nat) (chunks : List Chunk) (ab : Option Nat) :
    List.Sorted (fun a b : Nat × ToolCall => a.1 ≤ b.1)
      (Service.sortedEntries2 (Service.roundAccum2 now chunks))
    ∧ (Service.streamOneRound2 now chunks .finished).toolCalls
      = (Service.sortedEntries2 (Service.roundAccum2 now chunks)).map (·.2)
    ∧ (∀ m, (Plugin.processRound1 chunks ab).message = some m →
        m.tool_calls = (Plugin.processRound1 chunks ab).entries.map (·.2)) := by
  refine ⟨sorted_sortedEntries2 _, rfl, ?_⟩
  unfold Plugin.processRound1
  generalize 0 = t
  generalize hgen : ("" : String) = text
  generalize ([] : AccMap) = macc
  generalize ([] : List Event) = events
  clear hgen
  induction chunks generalizing t text macc events with
  | nil =>
    intro m hm
    simp only [Plugin.processRound1Aux, Plugin.finalize1, Option.some.injEq] at hm ⊢
    subst hm
    rfl
  | cons ch rest ih =>
    intro m hm
    simp only [Plugin.processRound1Aux] at hm ⊢
    by_cases h1 : Plugin.abortHit ab (2 * t)
    · simp only [h1, if_true] at hm ⊢
      simp only [Plugin.finalize1, Option.some.injEq] at hm ⊢
      subst hm
      rfl
    · simp only [h1, if_false] at hm ⊢
      by_cases h2 : Plugin.abortHit ab (2 * t + 1)
      · simp only [h2, if_true] at hm
        exact absurd hm (by simp)
      · simp only [h2, if_false] at hm ⊢
        exact ih _ _ _ _ m hm

/-- Witness for C4 (amended): on the out-of-order fixture the
`AgentLoop` message's descriptors equal its accumulator's values in
discovery order. -/
theorem c4_ordering_amended_witness :
    (Plugin.processRound1 outOfOrderChunks none).message.map (·.tool_calls)
      = some ((Plugin.processRound1 outOfOrderChunks none).entries.map (·.2)) := by
  cases hm : (Plugin.processRound1 outOfOrderChunks none).message with
  | none => exact absurd hm (by decide)
  | some m =>
    show some m.tool_calls = _
    exact congrArg some ((c4_ordering_amended 0 outOfOrderChunks none).2.2 m hm)

/-- Helper: `streamOneRound`'s chunk fold over fragment-only chunks is the
fragment fold over the concatenated fragments; text and events are
untouched. -/
theorem foldl_chunkStep2_frags (now : Nat) :
    ∀ (css : List (List Frag)) (st : String × AccMap × List Event),
      List.foldl (Service.chunkStep2 now) st (css.map fragsToChunk)
        = (st.1, css.flatten.foldl (Service.fragStep2 now) st.2.1, st.2.2) := by
  intro css
  induction css with
  | nil => intro st; simp
  | cons cs css ih =>
    intro st
    obtain ⟨t, m, e⟩ := st
    simp only [List.map_cons, List.foldl_cons, List.flatten_cons]
    rw [show Service.chunkStep2 now (t, m, e) (fragsToChunk cs)
        = (t, cs.foldl (Service.fragStep2 now) m, e) from rfl]
    rw [ih]
    simp [List.foldl_append]

/-- Helper: event accumulation in `fragFold1` is a left action: starting
from events `e` just prepends `e` to the events produced from `[]`. -/
theorem foldl_fragFold1_shift :
    ∀ (fs : List Frag) (m : AccMap) (e : List Event),
      fs.foldl Plugin.fragFold1 (m, e)
        = ((fs.foldl Plugin.fragFold1 (m, [])).1,
           e ++ (fs.foldl Plugin.fragFold1 (m, [])).2) := by
  intro fs
  induction fs with
  | nil => intro m e; simp
  | cons f fs ih =>
    intro m e
    rcases h : Plugin.fragStep1 m f with ⟨m1, e1⟩
    simp only [List.foldl_cons]
    rw [show Plugin.fragFold1 (m, e) f = (m1, e ++ e1) from by simp [Plugin.fragFold1, h]]
    rw [show Plugin.fragFold1 (m, []) f = (m1, e1) from by simp [Plugin.fragFold1, h]]
    rw [ih m1 (e ++ e1), ih m1 e1]
    simp

/-- Helper: `processRound`'s chunk step on a fragment-only chunk. -/
theorem chunkStep1_frags (t : String) (m : AccMap) (cs : List Frag) :
    Plugin.chunkStep1 t m (fragsToChunk cs)
      = (t, (cs.foldl Plugin.fragFold1 (m, [])).1, (cs.foldl Plugin.fragFold1 (m, [])).2) := by
  rfl

/-- Helper: `processRound` (no abort) over fragment-only chunks is
`finalize1` of the fragment fold over the concatenated fragments. -/
theorem processRound1Aux_frags :
    ∀ (css : List (List Frag)) (t : Nat) (text : String) (m : AccMap)
      (events : List Event),
      Plugin.processRound1Aux none t (css.map fragsToChunk) text m events
        = Plugin.finalize1 text (css.flatten.foldl Plugin.fragFold1 (m, [])).1
            (events ++ (css.flatten.foldl Plugin.fragFold1 (m, [])).2) := by
  intro css
  induction css with
  | nil =>
    intro t text m events
    simp [Plugin.processRound1Aux]
  | cons cs css ih =>
    intro t text m events
    simp only [List.map_cons, List.flatten_cons, Plugin.processRound1Aux, Plugin.abortHit,
      if_false]
    rw [chunkStep1_frags]
    rw [ih]
    rw [List.foldl_append]
    rcases h1 : cs.foldl Plugin.fragFold1 (m, []) with ⟨m1, e1⟩
    rw [foldl_fragFold1_shift css.flatten m1 e1]
    rcases h2 : css.flatten.foldl Plugin.fragFold1 (m1, []) with ⟨m2, e2⟩
    simp

/-- Claim C7: chunking invariance of the Round Accumulator, in both
implementations — any two groupings of the same tool-call fragment
sequence into chunks produce the same round outcome (same final
descriptors: name, id and the fully concatenated arguments string per
positional index; and the same events). -/
theorem c7_chunking_invariance (now : Nat) (css1 css2 : List (List Frag))
    (h : css1.flatten = css2.flatten) :
    Plugin.processRound1 (css1.map fragsToChunk) none
      = Plugin.processRound1 (css2.map fragsToChunk) none
    ∧ Service.streamOneRound2 now (css1.map fragsToChunk) .finished
      = Service.streamOneRound2 now (css2.map fragsToChunk) .finished := by
  constructor
  · unfold Plugin.processRound1
    rw [processRound1Aux_frags, processRound1Aux_frags, h]
  · unfold Service.streamOneRound2
    rw [foldl_chunkStep2_frags, foldl_chunkStep2_frags, h]

/-- Witness for C7: two different chunkings of the same three fragments
(an id-less creation, an arguments slice, and another arguments slice)
give identical round outcomes in both implementations. -/
theorem c7_chunking_invariance_witness :
    Plugin.processRound1
        ([[{ index := 0, id := some "a", name := some "grep" },
           { index := 0, arguments := some "\x7b\x22pat" }],
          [{ index := 0, arguments := some "tern\x22:1\x7d" }]].map fragsToChunk) none
      = Plugin.processRound1
        ([[{ index := 0, id := some "a", name := some "grep" }],
          [{ index := 0, arguments := some "\x7b\x22pat" },
           { index := 0, arguments := some "tern\x22:1\x7d" }]].map fragsToChunk) none
    ∧ Service.streamOneRound2 9
        ([[{ index := 0, id := some "a", name := some "grep" },
           { index := 0, arguments := some "\x7b\x22pat" }],
          [{ index := 0, arguments := some "tern\x22:1\x7d" }]].map fragsToChunk) .finished
      = Service.streamOneRound2 9
        ([[{ index := 0, id := some "a", name := some "grep" }],
          [{ index := 0, arguments := some "\x7b\x22pat" },
           { index := 0, arguments := some "tern\x22:1\x7d" }]].map fragsToChunk) .finished :=
  c7_chunking_invariance 9
    [[{ index := 0, id := some "a", name := some "grep" },
      { index := 0, arguments := some "\x7b\x22pat" }],
     [{ index := 0, arguments := some "tern\x22:1\x7d" }]]
    [[{ index := 0, id := some "a", name := some "grep" }],
     [{ index := 0, arguments := some "\x7b\x22pat" },
      { index := 0, arguments := some "tern\x22:1\x7d" }]]
    (by decide)

/-- Helper: the fragment callbacks never include a completion event. -/
theorem noDone_fragStep1 (m : AccMap) (f : Frag) :
    Event.done ∉ (Plugin.fragStep1 m f).2 := by
  unfold Plugin.fragStep1
  rcases hfn : f.name with _ | n <;> rcases hfa : f.arguments with _ | a <;>
    simp [hfn, hfa]

/-- Helper: folding fragments adds no completion event. -/
theorem noDone_foldl_fragFold1 :
    ∀ (fs : List Frag) (st : AccMap × List Event),
      Event.done ∉ st.2 → Event.done ∉ (fs.foldl Plugin.fragFold1 st).2 := by
  intro fs
  induction fs with
  | nil => intro st h; exact h
  | cons f fs ih =>
    intro st h
    simp only [List.foldl_cons]
    refine ih _ ?_
    unfold Plugin.fragFold1
    rcases hf : Plugin.fragStep1 st.1 f with ⟨m1, e1⟩
    simp only [hf, List.mem_append]
    rintro (hc | hc)
    · exact h hc
    · exact noDone_fragStep1 st.1 f (by rw [hf]; exact hc)

/-- Helper: one choice adds no completion event. -/
theorem noDone_choiceStep1 (st : String × AccMap × List Event) (c : Choice)
    (h : Event.done ∉ st.2.2) : Event.done ∉ (Plugin.choiceStep1 st c).2.2 := by
  unfold Plugin.choiceStep1
  refine noDone_foldl_fragFold1 _ _ ?_
  rcases hc : c.delta.content with _ | s
  · exact h
  · by_cases hs : s = "" <;> simp [hs, h]

/-- Helper: one chunk adds no completion event. -/
theorem noDone_chunkStep1 (text : String) (m : AccMap) (ch : Chunk) :
    Event.done ∉ (Plugin.chunkStep1 text m ch).2.2 := by
  unfold Plugin.chunkStep1
  have : ∀ (cs : List Choice) (st : String × AccMap × List Event),
      Event.done ∉ st.2.2 → Event.done ∉ (cs.foldl Plugin.choiceStep1 st).2.2 := by
    intro cs
    induction cs with
    | nil => intro st h; exact h
    | cons c cs ih =>
      intro st h
      simp only [List.foldl_cons]
      exact ih _ (noDone_choiceStep1 st c h)
  exact this ch.choices (text, m, []) (by simp)

/-- Helper: the events fired by `processRound` never include a completion
event (completions are emitted by `send`, not by the round). -/
theorem noDone_processRound1Aux :
    ∀ (chunks : List Chunk) (ab : Option Nat) (t : Nat) (text : String)
      (m : AccMap) (events : List Event),
      Event.done ∉ events →
      Event.done ∉ (Plugin.processRound1Aux ab t chunks text m events).events := by
  intro chunks
  induction chunks with
  | nil =>
    intro ab t text m events h
    simp only [Plugin.processRound1Aux, Plugin.finalize1]
    split_ifs <;> simp_all
  | cons ch rest ih =>
    intro ab t text m events h
    simp only [Plugin.processRound1Aux]
    split_ifs with h1 h2
    · simp only [Plugin.finalize1]
      split_ifs <;> simp_all
    · exact h
    · rcases hc : Plugin.chunkStep1 text m ch with ⟨t', m', evs⟩
      refine ih ab _ _ _ _ ?_
      simp only [List.mem_append]
      rintro (hx | hx)
      · exact h hx
      · exact noDone_chunkStep1 text m ch (by rw [hc]; exact hx)

/-- Helper: tool execution in `AgentLoop` fires only `onToolCallComplete`
events. -/
theorem noDone_executeToolCalls1 (pj : String → Option Args) :
    ∀ (tcs : List ToolCall) (env : Env),
      Event.done ∉ (Plugin.executeToolCalls1 pj env tcs).2.1 := by
  intro tcs
  induction tcs with
  | nil => intro env; simp [Plugin.executeToolCalls1]
  | cons tc rest ih =>
    intro env
    simp only [Plugin.executeToolCalls1]
    rcases hr : Plugin.execute tc.name ((pj tc.arguments).getD []) env with ⟨result, fs'⟩
    simp only [hr, List.mem_cons]
    rintro (hx | hx)
    · exact absurd hx (by simp)
    · exact ih _ hx

/-- Helper: with no abort in flight, `processRound` always returns an
assistant message (never `null`). -/
theorem processRound1Aux_isSome :
    ∀ (chunks : List Chunk) (t : Nat) (text : String) (m : AccMap)
      (events : List Event),
      (Plugin.processRound1Aux none t chunks text m events).message.isSome := by
  intro chunks
  induction chunks with
  | nil => intro t text m events; simp [Plugin.processRound1Aux, Plugin.finalize1]
  | cons ch rest ih =>
    intro t text m events
    simp only [Plugin.processRound1Aux, Plugin.abortHit, if_false]
    rcases hc : Plugin.chunkStep1 text m ch with ⟨t', m', evs⟩
    exact ih _ _ _ _

/-- Helper: the round-loop of `AgentLoop.send` under a model that requests
a tool call in every round: it consumes all its fuel (one round per unit),
then appends exactly the max-rounds notice and the completion event, with
no completion event before them. -/
theorem sendLoop1_spec (oracle : Nat → List Chunk) (pj : String → Option Args)
    (htools : ∀ r m, (Plugin.processRound1 (oracle r) none).message = some m →
      m.tool_calls ≠ []) :
    ∀ (fuel rounds : Nat) (env : Env) (msgs : List ChatMessage)
      (events : List Event),
      (Plugin.sendLoop1 oracle none pj fuel rounds env msgs events).rounds
        = rounds + fuel
      ∧ ∃ E, (Plugin.sendLoop1 oracle none pj fuel rounds env msgs events).events
          = events ++ E ++ [Event.textDelta Plugin.maxRoundsNotice, Event.done]
        ∧ Event.done ∉ E := by
  intro fuel
  induction fuel with
  | zero =>
    intro rounds env msgs events
    refine ⟨rfl, [], by simp [Plugin.sendLoop1], by simp⟩
  | succ fuel ih =>
    intro rounds env msgs events
    have hsome := processRound1Aux_isSome (oracle rounds) 0 "" [] []
    rcases hmsg : (Plugin.processRound1 (oracle rounds) none).message with _ | m
    · unfold Plugin.processRound1 at hmsg
      rw [hmsg] at hsome
      exact absurd hsome (by simp)
    · have htc : m.tool_calls ≠ [] := htools rounds m hmsg
      rcases hexe : Plugin.executeToolCalls1 pj env m.tool_calls with ⟨tmsgs, tevs, env'⟩
      have hstep : Plugin.sendLoop1 oracle none pj (fuel + 1) rounds env msgs events
          = Plugin.sendLoop1 oracle none pj fuel (rounds + 1) env'
              (msgs ++ [m] ++ tmsgs)
              (events ++ (Plugin.processRound1 (oracle rounds) none).events ++ tevs) := by
        have hab : Plugin.roundAbortIdx none rounds = none := rfl
        have hb1 : Plugin.abortedBefore none rounds = false := rfl
        have hb2 : Plugin.abortedByToolPhase none rounds = false := rfl
        simp only [Plugin.sendLoop1, hab, hb1, hb2, hmsg, hexe, Bool.false_eq_true,
          if_false]
        rw [if_neg htc]
      rw [hstep]
      obtain ⟨hr, E', hE', hnd⟩ := ih (rounds + 1) env' (msgs ++ [m] ++ tmsgs)
        (events ++ (Plugin.processRound1 (oracle rounds) none).events ++ tevs)
      refine ⟨by omega,
        (Plugin.processRound1 (oracle rounds) none).events ++ tevs ++ E', ?_, ?_⟩
      · rw [hE']
        simp [List.append_assoc]
      · simp only [List.mem_append]
        rintro ((hx | hx) | hx)
        · exact noDone_processRound1Aux (oracle rounds) _ 0 "" [] [] (by simp) hx
        · refine noDone_executeToolCalls1 pj m.tool_calls env ?_
          rw [hexe]
          exact hx
        · exact hnd hx

/-- Helper: the chunk fold of `streamOneRound` adds only text events. -/
theorem noDone_foldl_chunkStep2 (now : Nat) :
    ∀ (chunks : List Chunk) (st : String × AccMap × List Event),
      Event.done ∉ st.2.2 →
      Event.done ∉ (chunks.foldl (Service.chunkStep2 now) st).2.2 := by
  intro chunks
  induction chunks with
  | nil => intro st h; exact h
  | cons ch rest ih =>
    intro st h
    simp only [List.foldl_cons]
    refine ih _ ?_
    unfold Service.chunkStep2
    rcases ch.choices with _ | ⟨c, _⟩
    · exact h
    · rcases hc : c.delta.content with _ | s
      · simp [hc, h]
      · by_cases hs : s = "" <;> simp [hc, hs, h]

/-- Helper: the events of a round of `streamOneRound` contain no
completion event. -/
theorem noDone_streamOneRound2 (now : Nat) (chunks : List Chunk)
    (ending : Service.StreamEnding) :
    Event.done ∉ (Service.streamOneRound2 now chunks ending).events := by
  have h := noDone_foldl_chunkStep2 now chunks ("", [], []) (by simp)
  unfold Service.streamOneRound2
  rcases ending <;> exact h

/-- Helper: tool execution in `CopilotService.query` yields only
`tool_use` and `tool_result` chunks. -/
theorem noDone_executeToolCalls2 (pj : String → Option Args) :
    ∀ (tcs : List ToolCall) (env : Env),
      Event.done ∉ (Service.executeToolCalls2 pj env tcs).2.1 := by
  intro tcs
  induction tcs with
  | nil => intro env; simp [Service.executeToolCalls2]
  | cons tc rest ih =>
    intro env
    simp only [Service.executeToolCalls2]
    rcases hr : Service.execute tc.name ((pj tc.arguments).getD []) env with ⟨result, fs'⟩
    simp only [hr, List.mem_cons]
    rintro (hx | hx | hx)
    · exact absurd hx (by simp)
    · exact absurd hx (by simp)
    · exact ih _ hx

/-- Helper: the round loop of `CopilotService.query` under a model that
requests a tool call in every round: one round and one expiry re-check per
unit of fuel, then the terminal error chunk; no `done` chunk anywhere. -/
theorem queryLoop2_spec (oracle : Nat → List Chunk × Service.StreamEnding)
    (nowAt : Nat → Nat) (expired : Nat → Bool) (pj : String → Option Args)
    (hfin : ∀ r, (oracle r).2 = .finished)
    (htools : ∀ r,
      (Service.streamOneRound2 (nowAt r) (oracle r).1 .finished).toolCalls ≠ []) :
    ∀ (fuel round : Nat) (env : Env) (msgs : List ChatMessage)
      (events : List Event) (checks refr : Nat),
      (Service.queryLoop2 oracle nowAt expired pj fuel round env msgs events checks refr).rounds
        = round + fuel
      ∧ (Service.queryLoop2 oracle nowAt expired pj fuel round env msgs events checks refr).expiryChecks
        = checks + fuel
      ∧ ∃ E, (Service.queryLoop2 oracle nowAt expired pj fuel round env msgs events checks refr).events
          = events ++ E
            ++ [Event.errorEv ("Max tool rounds (" ++ toString Plugin.maxToolRounds ++ ") exceeded")]
        ∧ Event.done ∉ E := by
  intro fuel
  induction fuel with
  | zero =>
    intro round env msgs events checks refr
    refine ⟨rfl, rfl, [], by simp [Service.queryLoop2], by simp⟩
  | succ fuel ih =>
    intro round env msgs events checks refr
    rcases hexe : Service.executeToolCalls2 pj env
        (Service.streamOneRound2 (nowAt round) (oracle round).1 .finished).toolCalls
      with ⟨tmsgs, tevs, env'⟩
    have hstep : Service.queryLoop2 oracle nowAt expired pj (fuel + 1) round env msgs
          events checks refr
        = Service.queryLoop2 oracle nowAt expired pj fuel (round + 1) env'
            ((msgs ++ [Service.assistantOfRound
                (Service.streamOneRound2 (nowAt round) (oracle round).1 .finished)])
              ++ tmsgs)
            ((events ++ (Service.streamOneRound2 (nowAt round) (oracle round).1
              .finished).events) ++ tevs)
            (checks + 1) (refr + if expired round then 1 else 0) := by
      simp only [Service.queryLoop2, hfin round, hexe]
      rw [if_neg (htools round)]
      rfl
    rw [hstep]
    obtain ⟨hr, hc, E', hE', hnd⟩ := ih (round + 1) env'
      ((msgs ++ [Service.assistantOfRound
          (Service.streamOneRound2 (nowAt round) (oracle round).1 .finished)]) ++ tmsgs)
      ((events ++ (Service.streamOneRound2 (nowAt round) (oracle round).1
        .finished).events) ++ tevs)
      (checks + 1) (refr + if expired round then 1 else 0)
    refine ⟨by omega, by omega,
      (Service.streamOneRound2 (nowAt round) (oracle round).1 .finished).events
        ++ tevs ++ E', ?_, ?_⟩
    · rw [hE']
      simp [List.append_assoc]
    · simp only [List.mem_append]
      rintro ((hx | hx) | hx)
      · exact noDone_streamOneRound2 (nowAt round) (oracle round).1 .finished hx
      · refine noDone_executeToolCalls2 pj
          (Service.streamOneRound2 (nowAt round) (oracle round).1 .finished).toolCalls env ?_
        rw [hexe]
        exact hx
      · exact hnd hx

/-- Helper: `AgentLoop.send`'s loop performs exactly one credential check
per send, whatever happens. -/
theorem sendLoop1_tokenChecks (oracle : Nat → List Chunk)
    (abort : Option (Nat × Nat)) (pj : String → Option Args) :
    ∀ (fuel rounds : Nat) (env : Env) (msgs : List ChatMessage)
      (events : List Event),
      (Plugin.sendLoop1 oracle abort pj fuel rounds env msgs events).tokenChecks = 1 := by
  intro fuel
  induction fuel with
  | zero => intro rounds env msgs events; rfl
  | succ fuel ih =>
    intro rounds env msgs events
    simp only [Plugin.sendLoop1]
    rcases hmsg : (Plugin.processRound1 (oracle rounds)
        (Plugin.roundAbortIdx abort rounds)).message with _ | m <;>
      simp only [hmsg] <;> split_ifs <;> first | rfl | exact ih _ _ _ _

/-- Claim C3, amended: for a model that requests at least one tool call in
every round, both loops run exactly 25 rounds and never a 26th.
`AgentLoop.send` then emits the max-rounds notice as assistant text
followed by a `done` event (no earlier completion), completing normally;
`CopilotService.query`, however, ends with an error chunk
`Max tool rounds (25) exceeded` and never emits a `done` event. -/
theorem c3_round_cap_amended
    (oracle1 : Nat → List Chunk) (pj : String → Option Args) (env : Env)
    (msgs : List ChatMessage) (user : String)
    (htools1 : ∀ r m, (Plugin.processRound1 (oracle1 r) none).message = some m →
      m.tool_calls ≠ [])
    (oracle2 : Nat → List Chunk × Service.StreamEnding) (nowAt : Nat → Nat)
    (expired : Nat → Bool) (pj2 : String → Option Args) (env2 : Env)
    (msgs2 : List ChatMessage)
    (hfin2 : ∀ r, (oracle2 r).2 = .finished)
    (htools2 : ∀ r,
      (Service.streamOneRound2 (nowAt r) (oracle2 r).1 .finished).toolCalls ≠ []) :
    (Plugin.send1 oracle1 none pj env msgs user).rounds = Plugin.maxToolRounds
    ∧ (∃ E, (Plugin.send1 oracle1 none pj env msgs user).events
        = E ++ [Event.textDelta Plugin.maxRoundsNotice, Event.done]
      ∧ Event.done ∉ E)
    ∧ (Service.query2 oracle2 nowAt expired pj2 env2 msgs2).rounds = Plugin.maxToolRounds
    ∧ (∃ E, (Service.query2 oracle2 nowAt expired pj2 env2 msgs2).events
        = E ++ [Event.errorEv ("Max tool rounds ("
            ++ toString Plugin.maxToolRounds ++ ") exceeded")]
      ∧ Event.done ∉ E) := by
  obtain ⟨hr1, E1, hE1, hnd1⟩ := sendLoop1_spec oracle1 pj htools1
    Plugin.maxToolRounds 0 env
    (msgs ++ [{ role := .user, content := some user }]) []
  obtain ⟨hr2, _, E2, hE2, hnd2⟩ := queryLoop2_spec oracle2 nowAt expired pj2
    hfin2 htools2 Plugin.maxToolRounds 0 env2 msgs2 [] 0 0
  refine ⟨hr1, ⟨E1, ?_, hnd1⟩, hr2, ⟨E2, ?_, hnd2⟩⟩
  · rw [show Plugin.send1 oracle1 none pj env msgs user
        = Plugin.sendLoop1 oracle1 none pj Plugin.maxToolRounds 0 env
            (msgs ++ [{ role := .user, content := some user }]) [] from rfl]
    rw [hE1]
    simp
  · rw [show Service.query2 oracle2 nowAt expired pj2 env2 msgs2
        = Service.queryLoop2 oracle2 nowAt expired pj2 Plugin.maxToolRounds 0 env2
            msgs2 [] 0 0 from rfl]
    rw [hE2]
    simp

/-- Witness for C3 (amended): the constant noop-tool model drives both
loops through all 25 rounds. -/
theorem c3_round_cap_amended_witness :
    (Plugin.send1 alwaysToolOracle1 none noParse trivEnv Plugin.initMessages "go").rounds
      = Plugin.maxToolRounds
    ∧ (∃ E, (Plugin.send1 alwaysToolOracle1 none noParse trivEnv
          Plugin.initMessages "go").events
        = E ++ [Event.textDelta Plugin.maxRoundsNotice, Event.done]
      ∧ Event.done ∉ E)
    ∧ (Service.query2 alwaysToolOracle2 (fun _ => 0) (fun _ => false) noParse trivEnv []).rounds
      = Plugin.maxToolRounds
    ∧ (∃ E, (Service.query2 alwaysToolOracle2 (fun _ => 0) (fun _ => false) noParse
          trivEnv []).events
        = E ++ [Event.errorEv ("Max tool rounds ("
            ++ toString Plugin.maxToolRounds ++ ") exceeded")]
      ∧ Event.done ∉ E) :=
  c3_round_cap_amended alwaysToolOracle1 noParse trivEnv Plugin.initMessages "go"
    (by
      intro r m hm
      rw [show (Plugin.processRound1 (alwaysToolOracle1 r) none).message
          = some noopAssistantMsg from rfl] at hm
      cases hm
      decide)
    alwaysToolOracle2 (fun _ => 0) (fun _ => false) noParse trivEnv []
    (fun _ => rfl)
    (by
      intro r
      show (Service.streamOneRound2 0 [noopChunk] .finished).toolCalls ≠ []
      decide)

/-- Claim C9, amended: within one `CopilotService.query`, the credential's
expiry is re-checked after every round that executed tools — hence before
every round after the first — (shown here as: a query whose every round
executes tools performs exactly one re-check per round); in
`AgentLoop.send`, by contrast, the credential is obtained once before the
loop and never re-checked, whatever the model does. -/
theorem c9_token_recheck_amended
    (oracle1 : Nat → List Chunk) (abort : Option (Nat × Nat))
    (pj : String → Option Args) (env : Env) (msgs : List ChatMessage)
    (user : String)
    (oracle2 : Nat → List Chunk × Service.StreamEnding) (nowAt : Nat → Nat)
    (expired : Nat → Bool) (pj2 : String → Option Args) (env2 : Env)
    (msgs2 : List ChatMessage)
    (hfin2 : ∀ r, (oracle2 r).2 = .finished)
    (htools2 : ∀ r,
      (Service.streamOneRound2 (nowAt r) (oracle2 r).1 .finished).toolCalls ≠ []) :
    (Plugin.send1 oracle1 abort pj env msgs user).tokenChecks = 1
    ∧ (Service.query2 oracle2 nowAt expired pj2 env2 msgs2).expiryChecks
      = Plugin.maxToolRounds := by
  constructor
  · exact sendLoop1_tokenChecks oracle1 abort pj Plugin.maxToolRounds 0 env
      (msgs ++ [{ role := .user, content := some user }]) []
  · exact (queryLoop2_spec oracle2 nowAt expired pj2 hfin2 htools2
      Plugin.maxToolRounds 0 env2 msgs2 [] 0 0).2.1

/-- Witness for C9 (amended): under the constant noop-tool model,
`AgentLoop.send` checks the credential once while `CopilotService.query`
re-checks it 25 times. -/
theorem c9_token_recheck_amended_witness :
    (Plugin.send1 alwaysToolOracle1 none noParse trivEnv Plugin.initMessages "go").tokenChecks
      = 1
    ∧ (Service.query2 alwaysToolOracle2 (fun _ => 0) (fun _ => false) noParse trivEnv []).expiryChecks
      = Plugin.maxToolRounds :=
  c9_token_recheck_amended alwaysToolOracle1 none noParse trivEnv
    Plugin.initMessages "go"
    alwaysToolOracle2 (fun _ => 0) (fun _ => false) noParse trivEnv []
    (fun _ => rfl)
    (by
      intro r
      show (Service.streamOneRound2 0 [noopChunk] .finished).toolCalls ≠ []
      decide)

/-- Helper: the round loop of `AgentLoop.send` only ever appends to the
conversation history. -/
theorem sendLoop1_messages_append (oracle : Nat → List Chunk)
    (abort : Option (Nat × Nat)) (pj : String → Option Args) :
    ∀ (fuel rounds : Nat) (env : Env) (msgs : List ChatMessage)
      (events : List Event),
      ∃ t, (Plugin.sendLoop1 oracle abort pj fuel rounds env msgs events).messages
        = msgs ++ t := by
  intro fuel
  induction fuel with
  | zero => intro rounds env msgs events; exact ⟨[], by simp [Plugin.sendLoop1]⟩
  | succ fuel ih =>
    intro rounds env msgs events
    simp only [Plugin.sendLoop1]
    rcases hmsg : (Plugin.processRound1 (oracle rounds)
        (Plugin.roundAbortIdx abort rounds)).message with _ | m <;>
      simp only [hmsg] <;> split_ifs <;>
      first
        | exact ⟨[], (List.append_nil msgs).symm⟩
        | exact ⟨[m], rfl⟩
        | (obtain ⟨t, ht⟩ := ih (rounds + 1)
             (Plugin.executeToolCalls1 pj env m.tool_calls).2.2
             (msgs ++ [m] ++ (Plugin.executeToolCalls1 pj env m.tool_calls).1)
             (events ++ (Plugin.processRound1 (oracle rounds)
               (Plugin.roundAbortIdx abort rounds)).events
               ++ (Plugin.executeToolCalls1 pj env m.tool_calls).2.1)
           exact ⟨m :: (Plugin.executeToolCalls1 pj env m.tool_calls).1 ++ t,
             by rw [ht]; simp⟩)

/-- Claim C10: the `AgentLoop` history invariant — the message list is
non-empty and starts with the fixed system-prompt message.  The
constructor installs exactly `[systemMessage]`, `send` (hence round
processing and tool execution) only appends messages, `clearHistory`
resets to exactly `[systemMessage]`, and therefore every operation
preserves the invariant. -/
theorem c10_history_invariant :
    Plugin.initMessages = [Plugin.systemMessage]
    ∧ historyInv Plugin.initMessages
    ∧ Plugin.clearHistory = [Plugin.systemMessage]
    ∧ historyInv Plugin.clearHistory
    ∧ (∀ (oracle : Nat → List Chunk) (abort : Option (Nat × Nat))
        (pj : String → Option Args) (env : Env) (msgs : List ChatMessage)
        (user : String),
        ∃ t, (Plugin.send1 oracle abort pj env msgs user).messages
          = msgs ++ ({ role := .user, content := some user } : ChatMessage) :: t)
    ∧ (∀ (oracle : Nat → List Chunk) (abort : Option (Nat × Nat))
        (pj : String → Option Args) (env : Env) (msgs : List ChatMessage)
        (user : String),
        historyInv msgs →
        historyInv (Plugin.send1 oracle abort pj env msgs user).messages) := by
  have happ : ∀ (oracle : Nat → List Chunk) (abort : Option (Nat × Nat))
      (pj : String → Option Args) (env : Env) (msgs : List ChatMessage)
      (user : String),
      ∃ t, (Plugin.send1 oracle abort pj env msgs user).messages
        = msgs ++ ({ role := .user, content := some user } : ChatMessage) :: t := by
    intro oracle abort pj env msgs user
    obtain ⟨t, ht⟩ := sendLoop1_messages_append oracle abort pj
      Plugin.maxToolRounds 0 env
      (msgs ++ [{ role := .user, content := some user }]) []
    refine ⟨t, ?_⟩
    rw [show Plugin.send1 oracle abort pj env msgs user
        = Plugin.sendLoop1 oracle abort pj Plugin.maxToolRounds 0 env
            (msgs ++ [{ role := .user, content := some user }]) [] from rfl]
    rw [ht]
    simp
  refine ⟨rfl, rfl, rfl, rfl, happ, ?_⟩
  intro oracle abort pj env msgs user hinv
  obtain ⟨t, ht⟩ := happ oracle abort pj env msgs user
  unfold historyInv at hinv ⊢
  rw [ht]
  cases msgs with
  | nil => exact absurd hinv (by simp)
  | cons a l =>
    simp only [List.head?_cons, Option.some.injEq] at hinv
    simp [List.cons_append, hinv]

/-- Witness for C10: a send on the freshly-constructed history appends the
user message while keeping the system message first. -/
theorem c10_history_invariant_witness :
    historyInv (Plugin.send1 alwaysToolOracle1 none noParse trivEnv
      Plugin.initMessages "go").messages :=
  c10_history_invariant.2.2.2.2.2 alwaysToolOracle1 none noParse trivEnv
    Plugin.initMessages "go" rfl

/-- Claim C9, counterexample: in `AgentLoop.send` the credential is
obtained by a single `ensureToken()` call before the round loop and never
re-checked: a send that runs 25 tool rounds still performs exactly one
credential check, contrary to the claim that expiry is re-checked before
every round after the first. -/
theorem c9_token_recheck_counterexample :
    (Plugin.send1 alwaysToolOracle1 none noParse trivEnv Plugin.initMessages "go").rounds
      = Plugin.maxToolRounds
    ∧ (Plugin.send1 alwaysToolOracle1 none noParse trivEnv Plugin.initMessages "go").tokenChecks
      = 1 := by
  decide

end Lucidian







